import Mathlib

/-!
Verification of the TrenchBroom map-parsing core (`StandardMapParser.h` and the
spec that accompanies it) via a shallow embedding in Lean 4.

The embedding follows the source header where the code is present (the
`QuakeMapToken` kind constants and the inline `parseFloatVector` template);
the parser-method bodies live in a translation unit that is not part of the
source tree, so those parts are modelled from the specification text, each
marked `Modelled from the spec:` in its doc comment.
-/

namespace TrenchBroom
namespace MapParsing

/-! ## Token kinds (from `StandardMapParser.h`, namespace `QuakeMapToken`) -/

namespace QuakeMapToken

/-- `using Type = unsigned int` in the source; kinds are plain machine words. -/
abbrev Type' := Nat

/-- `static const Type Integer = 1 << 0` — integer number. -/
def Integer : Type' := 1 <<< 0

/-- `static const Type Decimal = 1 << 1` — decimal number. -/
def Decimal : Type' := 1 <<< 1

/-- `static const Type String = 1 << 2` — string. -/
def String : Type' := 1 <<< 2

/-- `static const Type OParenthesis = 1 << 3` — opening parenthesis. -/
def OParenthesis : Type' := 1 <<< 3

/-- `static const Type CParenthesis = 1 << 4` — closing parenthesis. -/
def CParenthesis : Type' := 1 <<< 4

/-- `static const Type OBrace = 1 << 5` — opening brace. -/
def OBrace : Type' := 1 <<< 5

/-- `static const Type CBrace = 1 << 6` — closing brace. -/
def CBrace : Type' := 1 <<< 6

/-- `static const Type OBracket = 1 << 7` — opening bracket. -/
def OBracket : Type' := 1 <<< 7

/-- `static const Type CBracket = 1 << 8` — closing bracket. -/
def CBracket : Type' := 1 <<< 8

/-- `static const Type Comment = 1 << 9` — line comment. -/
def Comment : Type' := 1 <<< 9

/-- `static const Type Eof = 1 << 10` — end of file. -/
def Eof : Type' := 1 <<< 10

/-- `static const Type Eol = 1 << 11` — end of line. -/
def Eol : Type' := 1 <<< 11

/-- `static const Type Number = Integer | Decimal`. -/
def Number : Type' := Integer ||| Decimal

/-- The twelve primitive token kinds declared in the source, in declaration
order.  `Number` is not primitive: it is the union of the first two. -/
def kindList : List Type' :=
  [Integer, Decimal, String, OParenthesis, CParenthesis, OBrace, CBrace,
   OBracket, CBracket, Comment, Eof, Eol]

/-- A mask built as a union of kinds, exactly as C++ `k1 | k2 | ...` builds
one: the fold of bitwise-or over the chosen kinds. -/
def maskOf (ks : List Type') : Type' := ks.foldr (fun k m => k ||| m) 0

end QuakeMapToken

/-! ## Tokens and the tokenizer interface -/

/-- A token as produced by `QuakeMapTokenizer`: its kind bitmask plus its
payload (the numeric value for number tokens, the text for strings and
keywords).  Source: `Token = QuakeMapTokenizer::Token`. -/
structure Token where
  kind : QuakeMapToken.Type'
  num : ℚ := 0
  text : String := ""
deriving Repr, DecidableEq

/-- `m_tokenizer.nextToken()`: yields the next token of the stream and
advances past it; once the stream is exhausted it yields an `Eof` token (the
tokenizer always terminates on exhausting the input, spec section 5). -/
def nextToken : List Token → Token × List Token
  | [] => (⟨QuakeMapToken.Eof, 0, ""⟩, [])
  | t :: ts => (t, ts)

/-- Modelled from the spec: `Parser::expect(types, token)` (its body lives in
`IO/Parser.h`, which is not part of the source tree) tests the token's kind
against a bitmask of acceptable kinds — "kinds are a power-of-two bitmask so
a grammar rule can request an alternative set of acceptable kinds in one
test".  The test is a single bitwise and. -/
def tokenHasType (t : Token) (types : QuakeMapToken.Type') : Bool :=
  t.kind &&& types != 0

/-! ## `parseFloatVector` (inline in `StandardMapParser.h`)

The template body is present in the source header:

    expect(o, m_tokenizer.nextToken());
    vm::vec<T, S> vec;
    for (size_t i = 0; i < S; i++) {
      vec[i] = expect(QuakeMapToken::Number, m_tokenizer.nextToken()).toFloat<T>();
    }
    expect(c, m_tokenizer.nextToken());
    return vec;

A failed `expect` raises; the tokens consumed before the raise are not pushed
back.  The embedding returns `Except`, and the `error` payload is the
tokenizer position (remaining stream) at the moment the error propagates. -/

/-- The `for` loop of `parseFloatVector`: reads `n` tokens, each required to
match the `Number` mask, collecting their numeric values in order. -/
def parseNumbers : Nat → List Token → Except (List Token) (List ℚ × List Token)
  | 0, ts => .ok ([], ts)
  | n + 1, ts =>
    let (t, ts') := nextToken ts
    if tokenHasType t QuakeMapToken.Number then
      match parseNumbers n ts' with
      | .ok (vs, rest) => .ok (t.num :: vs, rest)
      | .error e => .error e
    else .error ts'

/-- `StandardMapParser::parseFloatVector<S, T>(o, c)`, translated from the
source header: expect an opening token matching mask `o`, then `S` tokens
matching the `Number` mask, then a closing token matching mask `c`; return the
`S` numeric values in order. -/
def parseFloatVector (S : Nat) (o c : QuakeMapToken.Type') (ts : List Token) :
    Except (List Token) (List ℚ × List Token) :=
  let (t, ts1) := nextToken ts
  if tokenHasType t o then
    match parseNumbers S ts1 with
    | .ok (vs, ts2) =>
      let (t2, ts3) := nextToken ts2
      if tokenHasType t2 c then .ok (vs, ts3) else .error ts3
    | .error e => .error e
  else .error ts1

/-- The token kind a run of `parseFloatVector S o c` expects at position `i`
of the stream: the opening mask at 0, the `Number` mask at positions
`1..S`, the closing mask at position `S+1`. -/
def expectedKindAt (S : Nat) (o c : QuakeMapToken.Type') (i : Nat) :
    QuakeMapToken.Type' :=
  if i = 0 then o else if i ≤ S then QuakeMapToken.Number else c

/-! ## Patches (`parsePatch`) -/

/-- A parsed patch: its declared grid size and its control points in
row-major reading order, each control point the five numbers `x y z u v`
("texture name plus a fixed-size rectangular grid of control points"; the
texture name does not matter to the grid claims and is omitted). -/
structure Patch where
  rows : Nat
  cols : Nat
  points : List (List ℚ)
deriving Repr, DecidableEq

/-- The construct-local error taxonomy of the patch grammar (spec section 7):
a grid-shape violation is `malformedPatchGrid` (`MalformedPatchGridError`),
any other kind mismatch is `unexpectedToken` (`UnexpectedTokenError`). -/
inductive PatchError where
  | malformedPatchGrid
  | unexpectedToken
deriving Repr, DecidableEq

/-- Modelled from the spec: the control-point loop of `parsePatch` (body not
part of the source tree) — "reads exactly rows×columns control points, each
`(x y z u v)`", each group read with the five-component instance of
`parseFloatVector`. -/
def parseControlPoints : Nat → List Token → Except PatchError (List (List ℚ) × List Token)
  | 0, ts => .ok ([], ts)
  | n + 1, ts =>
    match parseFloatVector 5 QuakeMapToken.OParenthesis QuakeMapToken.CParenthesis ts with
    | .ok (p, ts') =>
      match parseControlPoints n ts' with
      | .ok (ps, rest) => .ok (p :: ps, rest)
      | .error e => .error e
    | .error _ => .error .unexpectedToken

/-- Modelled from the spec: `StandardMapParser::parsePatch` (body not part of
the source tree) — "parses declared grid dimensions, then reads exactly
rows×columns control points"; "grid row/column counts are each odd integers
≥ 3 ... — malformed counts are a parse error, not silently clamped"
(`MalformedPatchGridError`).  Takes the already-tokenized grid dimensions and
the stream positioned at the first control point; a completed patch is the
value handed to the builder. -/
def parsePatch (r c : Nat) (ts : List Token) : Except PatchError (Patch × List Token) :=
  if r % 2 = 1 ∧ 3 ≤ r ∧ c % 2 = 1 ∧ 3 ≤ c then
    match parseControlPoints (r * c) ts with
    | .ok (ps, rest) => .ok (⟨r, c, ps⟩, rest)
    | .error e => .error e
  else .error .malformedPatchGrid

/-- Canonical token encoding of one control point `( x y z u v )`. -/
def pointToks (g : List ℚ) : List Token :=
  ⟨QuakeMapToken.OParenthesis, 0, "("⟩ ::
    (g.map (fun q => ⟨QuakeMapToken.Decimal, q, ""⟩) ++ [⟨QuakeMapToken.CParenthesis, 0, ")"⟩])

/-! ## Faces and brushes (`parseFace`, `parseBrush`) -/

/-- A parsed face in the standard dialect: three plane points, the texture
name, and the five implicit-axis attributes `xOffset yOffset rotation
xScale yScale` (spec sections 3 and 8). -/
structure Face where
  p1 : List ℚ
  p2 : List ℚ
  p3 : List ℚ
  texture : String
  attribs : List ℚ
deriving Repr, DecidableEq

/-- A face whose components have the arities the standard-dialect grammar
produces: three 3-vectors and five attribute numbers. -/
def WellFormedFace (f : Face) : Prop :=
  f.p1.length = 3 ∧ f.p2.length = 3 ∧ f.p3.length = 3 ∧ f.attribs.length = 5

/-- Modelled from the spec: `parseQuakeFace` / `parseFace` for the standard
dialect (body not part of the source tree) — three parenthesized plane
points, a texture name, then five numeric attribute fields, per the section-8
example `( 0 0 0 ) ( 0 1 0 ) ( 1 0 0 ) tex 0 0 0 1 1`.  A failed expect
raises with the offending token already consumed; the error payload is the
tokenizer position when the error propagates. -/
def parseFace (ts : List Token) : Except (List Token) (Face × List Token) :=
  match parseFloatVector 3 QuakeMapToken.OParenthesis QuakeMapToken.CParenthesis ts with
  | .error e => .error e
  | .ok (p1, ts1) =>
    match parseFloatVector 3 QuakeMapToken.OParenthesis QuakeMapToken.CParenthesis ts1 with
    | .error e => .error e
    | .ok (p2, ts2) =>
      match parseFloatVector 3 QuakeMapToken.OParenthesis QuakeMapToken.CParenthesis ts2 with
      | .error e => .error e
      | .ok (p3, ts3) =>
        let (t, ts4) := nextToken ts3
        if t.kind &&& QuakeMapToken.String ≠ 0 then
          match parseNumbers 5 ts4 with
          | .ok (attribs, rest) => .ok (⟨p1, p2, p3, t.text, attribs⟩, rest)
          | .error e => .error e
        else .error ts4

/-- Modelled from the spec: the face loop of `parseBrush` (body not part of
the source tree) — "repeatedly parse one Face per line until `}`"; a token
that opens neither a face nor closes the brush is an `UnexpectedTokenError`,
raised with that token consumed.  `fuel` bounds the number of loop
iterations; every theorem supplies more fuel than faces. -/
def parseBrushBody (fuel : Nat) (ts : List Token) :
    Except (List Token) (List Face × List Token) :=
  match fuel with
  | 0 => .error ts
  | fuel + 1 =>
    match ts with
    | [] => .error []
    | t :: rest =>
      if t.kind = QuakeMapToken.CBrace then .ok ([], rest)
      else if t.kind = QuakeMapToken.OParenthesis then
        match parseFace (t :: rest) with
        | .ok (f, ts') =>
          match parseBrushBody fuel ts' with
          | .ok (fs, rest') => .ok (f :: fs, rest')
          | .error e => .error e
        | .error e => .error e
      else .error rest

/-- Modelled from the spec: the resynchronization scan of section 7 — after
a construct-local error the parser "resynchronizes by scanning forward to
the next balanced closing delimiter at the same nesting depth, then resumes
at the enclosing scope".  `depth` is the number of unclosed `{` between the
current position and the enclosing scope. -/
def resync : Nat → List Token → List Token
  | _, [] => []
  | depth, t :: rest =>
    if t.kind = QuakeMapToken.CBrace then
      if depth ≤ 1 then rest else resync (depth - 1) rest
    else if t.kind = QuakeMapToken.OBrace then resync (depth + 1) rest
    else resync depth rest

/-- Modelled from the spec: the brush-block loop of one entity body
(`parseBrushesOrPatches` driving `parseBrushOrBrushPrimitiveOrPatch`; bodies
not part of the source tree).  "Every block parse is wrapped so a structural
error inside one brush ... is reported and that construct is abandoned, but
scanning resumes at the next balanced `}` so one malformed block does not
abort the whole file."  Returns the brushes (face lists) handed to the
builder and the number of errors reported through `ParserStatus.error`;
construct-local errors are consumed here and never unwind further. -/
def parseBrushBlocks (fuel : Nat) (ts : List Token) : List (List Face) × Nat :=
  match fuel with
  | 0 => ([], 0)
  | fuel + 1 =>
    match ts with
    | [] => ([], 0)
    | t :: rest =>
      if t.kind = QuakeMapToken.CBrace then ([], 0)
      else if t.kind = QuakeMapToken.OBrace then
        match parseBrushBody fuel rest with
        | .ok (faces, ts') =>
          let (bs, e) := parseBrushBlocks fuel ts'
          (faces :: bs, e)
        | .error epos =>
          let (bs, e) := parseBrushBlocks fuel (resync 1 epos)
          (bs, e + 1)
      else
        let (bs, e) := parseBrushBlocks fuel rest
        (bs, e + 1)

/-- The brush-block loop at its canonical fuel: one iteration per remaining
token always suffices, since every iteration consumes at least one token. -/
def parseEntityBrushes (ts : List Token) : List (List Face) × Nat :=
  parseBrushBlocks (ts.length + 1) ts

/-- Canonical token encoding of one face of the standard dialect. -/
def faceToks (f : Face) : List Token :=
  pointToks f.p1 ++ pointToks f.p2 ++ pointToks f.p3 ++
    (⟨QuakeMapToken.String, 0, f.texture⟩ ::
      f.attribs.map (fun q => ⟨QuakeMapToken.Decimal, q, ""⟩))

/-- Canonical token encoding of one well-formed brush block:
`{ face… }`. -/
def brushToks (fs : List Face) : List Token :=
  ⟨QuakeMapToken.OBrace, 0, "\x7b"⟩ ::
    (fs.flatMap faceToks ++ [⟨QuakeMapToken.CBrace, 0, "\x7d"⟩])

/-! ## Structural block detection (`parseBrushOrBrushPrimitiveOrPatch`) -/

/-- The structural form a `{`-introduced block can take inside an entity:
plain brush, primitive brush, or patch (spec section 3). -/
inductive BlockKind where
  | plainBrush
  | brushPrimitive
  | patch
  | unknown
deriving Repr, DecidableEq

/-- `static const std::string PatchId` — the reserved patch keyword. -/
def PatchId : String := "patchDef2"

/-- Modelled from the spec: the structural-form detection performed by
`parseBrushOrBrushPrimitiveOrPatch` (body not part of the source tree).  The
parser "must detect which structural form ... introduces each block by
lookahead, not solely by declared dialect": after the block's `{`, a reserved
patch keyword signals Patch; an `(` requires the tie-break — "scan far
enough" to see whether the `(` "immediately reopens with another `(`
(primitive's three-plane-point groups) versus a bare float sequence (plain
brush's plane-point triple)" — so the decision looks at the token after the
first `(` instead of stopping at a fixed one-token peek. -/
def detectBlockKind (ts : List Token) : BlockKind :=
  match ts with
  | t0 :: rest =>
    if t0.kind = QuakeMapToken.OBrace then
      match rest with
      | t1 :: rest' =>
        if t1.kind = QuakeMapToken.String then
          if t1.text = PatchId then .patch else .unknown
        else if t1.kind = QuakeMapToken.OParenthesis then
          match rest' with
          | t2 :: _ =>
            if t2.kind = QuakeMapToken.OParenthesis then .brushPrimitive
            else if t2.kind &&& QuakeMapToken.Number ≠ 0 then .plainBrush
            else .unknown
          | [] => .unknown
        else .unknown
      | [] => .unknown
    else .unknown
  | [] => .unknown

/-! ## Geometric axis resolver and format converter -/

/-- A 3-vector over the exact rationals (the embedding's stand-in for the
source's double-precision `vm::vec3`; all arithmetic used by the claims is
field arithmetic, computed exactly here). -/
structure Vec3 where
  x : ℚ
  y : ℚ
  z : ℚ
deriving Repr, DecidableEq

/-- Dot product. -/
def dot (a b : Vec3) : ℚ := a.x * b.x + a.y * b.y + a.z * b.z

/-- Cross product. -/
def cross (a b : Vec3) : Vec3 :=
  ⟨a.y * b.z - a.z * b.y, a.z * b.x - a.x * b.z, a.x * b.y - a.y * b.x⟩

/-- Modelled from the spec: the default texture basis of the Geometric Axis
Resolver (section 4.3; the implementation is not part of the source tree) —
"the component of the plane normal with greatest magnitude selects one of
three canonical basis pairs" (the Quake convention; ties resolved in the
order z, y, x). -/
def defaultAxes (n : Vec3) : Vec3 × Vec3 :=
  if |n.z| ≥ |n.x| ∧ |n.z| ≥ |n.y| then (⟨1, 0, 0⟩, ⟨0, -1, 0⟩)
  else if |n.y| ≥ |n.x| then (⟨1, 0, 0⟩, ⟨0, 0, -1⟩)
  else (⟨0, 1, 0⟩, ⟨0, 0, -1⟩)

/-- The first three entries of a parsed point as a `Vec3`. -/
def vec3OfList (l : List ℚ) : Vec3 := ⟨l.getD 0 0, l.getD 1 0, l.getD 2 0⟩

/-- Subtraction of 3-vectors. -/
def subv (a b : Vec3) : Vec3 := ⟨a.x - b.x, a.y - b.y, a.z - b.z⟩

/-- A face in an explicit-axis dialect (Valve / Quake2Valve / primitive):
plane (normal and distance) plus explicit U/V texture axes with offsets.
Scale/rotation are already folded into the axis vectors, as in the primitive
representation. -/
structure FaceExplicit where
  normal : Vec3
  d : ℚ
  uAxis : Vec3
  vAxis : Vec3
  uOff : ℚ
  vOff : ℚ
deriving Repr, DecidableEq

/-- A face in an implicit-axis dialect (Standard / Quake2 / Hexen2 /
Daikatana): plane plus offsets, rotation and scale over the default basis. -/
structure FaceImplicit where
  normal : Vec3
  d : ℚ
  uOff : ℚ
  vOff : ℚ
  rotation : ℚ
  xScale : ℚ
  yScale : ℚ
deriving Repr, DecidableEq

/-- Modelled from the spec: the Format Converter's explicit→implicit
direction (section 4.4; implementation not part of the source tree) —
"explicit→implicit conversion discards the axis vectors and instead stores
rotation=0/scale=(1,1) with offsets recomputed against the default basis".
The offsets are carried over (the spec does not fix the recomputation; no
choice of offsets can compensate a changed linear part, so the claims are
insensitive to it). -/
def explicitToImplicit (f : FaceExplicit) : FaceImplicit :=
  ⟨f.normal, f.d, f.uOff, f.vOff, 0, 1, 1⟩

/-- Modelled from the spec: the Format Converter's implicit→explicit
direction — "implicit→explicit conversion calls the Axis Resolver to
synthesize explicit vectors": the default basis of the plane, divided by the
scales.  Rotation synthesis needs trigonometry and is not rational; every
face reaching this conversion from `explicitToImplicit` has rotation 0, for
which the rotation is the identity. -/
def implicitToExplicit (f : FaceImplicit) : FaceExplicit :=
  let u := (defaultAxes f.normal).1
  let v := (defaultAxes f.normal).2
  ⟨f.normal, f.d,
    ⟨u.x / f.xScale, u.y / f.xScale, u.z / f.xScale⟩,
    ⟨v.x / f.yScale, v.y / f.yScale, v.z / f.yScale⟩,
    f.uOff, f.vOff⟩

/-- The UV coordinates an explicit-axis face projects a point to. -/
def uvOfExplicit (f : FaceExplicit) (p : Vec3) : ℚ × ℚ :=
  (dot f.uAxis p + f.uOff, dot f.vAxis p + f.vOff)

/-! ## Entity properties (`parseEntityProperty`) -/

/-- An entity property: a `(key, value)` pair of strings
(`Model::EntityProperty`). -/
structure EntityProperty where
  key : String
  value : String
deriving Repr, DecidableEq

/-- Modelled from the spec: one `parseEntityProperty` step (its body lives in
`StandardMapParser.cpp`, which is not part of the source tree).  The parser
accumulates `"key" "value"` pairs into the property list; "keys are
case-sensitive and unique within one entity", with the accumulator `keys`
(`EntityPropertyKeys = kdl::vector_set<std::string>`, compared by the
case-sensitive `std::string` order) recording the keys seen so far.  A pair
whose key is already present does not produce a second entry with that key;
the duplicate-handling choice the spec leaves open (section 9) is resolved
here as keep-first — only key-uniqueness matters to the claims.  State:
`(properties, keys)`. -/
def parseEntityProperty (st : List EntityProperty × List String)
    (k v : String) : List EntityProperty × List String :=
  if k ∈ st.2 then st else (st.1 ++ [⟨k, v⟩], st.2 ++ [k])

/-- Modelled from the spec: the entity-scope loop accumulating `"key"
"value"` pairs "into the property set until `{` ... or `}`", starting from
the empty per-construct accumulators. -/
def accumulateEntityProperties (pairs : List (String × String)) :
    List EntityProperty × List String :=
  pairs.foldl (fun st kv => parseEntityProperty st kv.1 kv.2) ([], [])

/-! ## Dialects and the dialect-parameterized grammar -/

/-- The face-syntax dialects (`Model::MapFormat`): the standard dialect and
the five variants distinguished by face-definition syntax (spec sections 1
and 3). -/
inductive MapFormat where
  | standard
  | valve
  | quake2
  | quake2Valve
  | hexen2
  | daikatana
deriving Repr, DecidableEq

/-- Modelled from the spec: whether a dialect encodes the texture axes
explicitly — "For explicit-axis dialects (Valve, Quake2Valve, primitive) the
given vectors are used directly" (section 4.3). -/
def formatHasExplicitAxes : MapFormat → Bool
  | .valve => true
  | .quake2Valve => true
  | _ => false

/-- Modelled from the spec: the dispatched face-dialect "determines how many
trailing numeric fields follow the texture name" (section 4.2).  The spec
fixes only that the count is a function of the dialect; the concrete table
follows the known formats (offsets/rotation/scale, plus flag fields in the
flag-bearing dialects), and nothing proved below depends on the specific
numbers. -/
def formatTrailingCount : MapFormat → Nat
  | .standard => 5
  | .valve => 3
  | .quake2 => 8
  | .quake2Valve => 6
  | .hexen2 => 6
  | .daikatana => 11

/-- A face parsed in an arbitrary dialect: three plane points, texture name,
the explicit 4-component axis fields when the dialect has them (empty lists
otherwise), and the dialect's trailing numeric fields. -/
structure DFace where
  p1 : List ℚ
  p2 : List ℚ
  p3 : List ℚ
  texture : String
  uAxis : List ℚ
  vAxis : List ℚ
  trailing : List ℚ
deriving Repr, DecidableEq

/-- Modelled from the spec: the dialect-dispatched face grammar (sections
4.2 and 4.3; `parseQuakeFace` … `parseValveFace` bodies are not part of the
source tree) — three parenthesized plane points, the texture name, then for
explicit-axis dialects the two bracketed axis 4-vectors (the shape of
`parseValveTextureAxes` in the header: `parseFloatVector<4>` between
brackets), then the dialect's trailing numeric fields.  A failed expect
raises with the offending token consumed; the error payload is the tokenizer
position when the error propagates. -/
def parseDialectFace (fmt : MapFormat) (ts : List Token) :
    Except (List Token) (DFace × List Token) :=
  match parseFloatVector 3 QuakeMapToken.OParenthesis QuakeMapToken.CParenthesis ts with
  | .error e => .error e
  | .ok (p1, ts1) =>
    match parseFloatVector 3 QuakeMapToken.OParenthesis QuakeMapToken.CParenthesis ts1 with
    | .error e => .error e
    | .ok (p2, ts2) =>
      match parseFloatVector 3 QuakeMapToken.OParenthesis QuakeMapToken.CParenthesis ts2 with
      | .error e => .error e
      | .ok (p3, ts3) =>
        let (t, ts4) := nextToken ts3
        if t.kind &&& QuakeMapToken.String ≠ 0 then
          if formatHasExplicitAxes fmt then
            match parseFloatVector 4 QuakeMapToken.OBracket QuakeMapToken.CBracket ts4 with
            | .error e => .error e
            | .ok (ua, ts5) =>
              match parseFloatVector 4 QuakeMapToken.OBracket QuakeMapToken.CBracket ts5 with
              | .error e => .error e
              | .ok (va, ts6) =>
                match parseNumbers (formatTrailingCount fmt) ts6 with
                | .ok (tr, rest) => .ok (⟨p1, p2, p3, t.text, ua, va, tr⟩, rest)
                | .error e => .error e
          else
            match parseNumbers (formatTrailingCount fmt) ts4 with
            | .ok (tr, rest) => .ok (⟨p1, p2, p3, t.text, [], [], tr⟩, rest)
            | .error e => .error e
        else .error ts4

/-- The plane normal of a dialect face, from its three defining points. -/
def dFaceNormal (f : DFace) : Vec3 :=
  cross (subv (vec3OfList f.p2) (vec3OfList f.p1))
    (subv (vec3OfList f.p3) (vec3OfList f.p1))

/-- Modelled from the spec: the canonical texture basis the Geometric Axis
Resolver produces for a face parsed in a given source dialect — the explicit
axis vectors when the dialect encodes them, otherwise the default basis
derived from the face's plane (section 4.3). -/
def resolvedAxes (fmt : MapFormat) (f : DFace) : Vec3 × Vec3 :=
  if formatHasExplicitAxes fmt then (vec3OfList f.uAxis, vec3OfList f.vAxis)
  else defaultAxes (dFaceNormal f)

/-- Modelled from the spec: the Format Converter's re-expression of a
resolved basis in the target dialect (section 4.4) — explicit-axis targets
keep the axes, implicit-axis targets discard them in favor of the default
basis of the plane. -/
def convertAxesTo (tgt : MapFormat) (n : Vec3) (axes : Vec3 × Vec3) : Vec3 × Vec3 :=
  if formatHasExplicitAxes tgt then axes else defaultAxes n

/-- A completed entity as delivered to the builder: its properties in
accumulation order and its brushes (face lists) in file order. -/
structure PEntity where
  properties : List EntityProperty
  brushes : List (List DFace)
deriving Repr, DecidableEq

/-! ## The full parser, dialect-parameterized (fuel-based functions) -/

/-- Modelled from the spec: the face loop of `parseBrush` over the
dispatched dialect — "repeatedly parse one Face per line until `}`"; a token
that opens neither a face nor closes the brush is an `UnexpectedTokenError`,
raised with that token consumed.  `fuel` bounds the iterations; one unit per
remaining token always suffices. -/
def parseFaceLoopF (fmt : MapFormat) : Nat → List Token →
    Except (List Token) (List DFace × List Token)
  | 0, ts => .error ts
  | fuel + 1, ts =>
    match ts with
    | [] => .error []
    | t :: rest =>
      if t.kind = QuakeMapToken.CBrace then .ok ([], rest)
      else if t.kind = QuakeMapToken.OParenthesis then
        match parseDialectFace fmt (t :: rest) with
        | .ok (f, ts') =>
          match parseFaceLoopF fmt fuel ts' with
          | .ok (fs, rest') => .ok (f :: fs, rest')
          | .error e => .error e
        | .error e => .error e
      else .error rest

/-- Modelled from the spec: the entity-scope loop (section 4.2) —
"accumulate `"key" "value"` pairs (both String-kind tokens) into the
property set until `{` (enter nested Brush …) or `}` (close Entity)" — with
the section-7 recovery: a construct-local error in a brush resynchronizes to
the balanced `}` and bumps the error count.  Returns the accumulated
properties (in order), the brushes (in order), the error count, and the
stream after the entity's closing `}`. -/
def parseEntityBodyF (fmt : MapFormat) : Nat → List Token →
    List EntityProperty × List String →
    Except (List Token) ((List EntityProperty × List (List DFace) × Nat) × List Token)
  | 0, ts, _ => .error ts
  | fuel + 1, ts, st =>
    match ts with
    | [] => .error []
    | t :: rest =>
      if t.kind = QuakeMapToken.CBrace then .ok ((st.1, [], 0), rest)
      else if t.kind = QuakeMapToken.String then
        let v := (nextToken rest).1
        let rest' := (nextToken rest).2
        if v.kind = QuakeMapToken.String then
          parseEntityBodyF fmt fuel rest' (parseEntityProperty st t.text v.text)
        else .error rest'
      else if t.kind = QuakeMapToken.OBrace then
        match parseFaceLoopF fmt fuel rest with
        | .ok (fs, ts') =>
          match parseEntityBodyF fmt fuel ts' st with
          | .ok ((props, bs, e), rest') => .ok ((props, fs :: bs, e), rest')
          | .error e' => .error e'
        | .error epos =>
          match parseEntityBodyF fmt fuel (resync 1 epos) st with
          | .ok ((props, bs, e), rest') => .ok ((props, bs, e + 1), rest')
          | .error e' => .error e'
      else .error rest

/-- Modelled from the spec: the top level (section 4.2) — "on `{` → enter
Entity; on EOF → terminal (success)", with section-7 recovery for a
construct-local error that abandons the whole entity.  Returns the entities
delivered to the builder, in order, and the number of errors reported
through `ParserStatus.error`. -/
def parseMapF (fmt : MapFormat) : Nat → List Token → List PEntity × Nat
  | 0, _ => ([], 0)
  | fuel + 1, ts =>
    match ts with
    | [] => ([], 0)
    | t :: rest =>
      if t.kind = QuakeMapToken.OBrace then
        match parseEntityBodyF fmt fuel rest ([], []) with
        | .ok ((props, bs, e), rest') =>
          let (ents, errs) := parseMapF fmt fuel rest'
          (⟨props, bs⟩ :: ents, e + errs)
        | .error epos =>
          let (ents, errs) := parseMapF fmt fuel (resync 1 epos)
          (ents, errs + 1)
      else
        let (ents, errs) := parseMapF fmt fuel rest
        (ents, errs + 1)

/-- The parser at its canonical fuel: every iteration of every loop consumes
at least one token, so one unit per token plus one always suffices. -/
def parseMap (fmt : MapFormat) (ts : List Token) : List PEntity × Nat :=
  parseMapF fmt (ts.length + 1) ts

/-- A four-token entity stream — `\x7b "classname" "worldspawn" \x7d` — used
to exercise the whole-file parser on a concrete input. -/
def worldspawnStream : List Token :=
  [⟨QuakeMapToken.OBrace, 0, ""⟩, ⟨QuakeMapToken.String, 0, "classname"⟩,
   ⟨QuakeMapToken.String, 0, "worldspawn"⟩, ⟨QuakeMapToken.CBrace, 0, ""⟩]

/-! ## The parse as a derivation system (run relations) -/

/-- The face loop of one brush as a big-step derivation relation over the
dispatched dialect: one rule per grammar alternative (spec section 4.2).  A
run relates the stream to the outcome — the parsed faces and remaining
stream, or the construct-local error position. -/
inductive FaceLoopRun (fmt : MapFormat) :
    List Token → Except (List Token) (List DFace × List Token) → Prop
  | eofF : FaceLoopRun fmt [] (.error [])
  | closeF (t : Token) (rest : List Token) :
      t.kind = QuakeMapToken.CBrace → FaceLoopRun fmt (t :: rest) (.ok ([], rest))
  | faceOkF (t : Token) (rest : List Token) (f : DFace) (ts' : List Token)
      (fs : List DFace) (rest' : List Token) :
      t.kind ≠ QuakeMapToken.CBrace → t.kind = QuakeMapToken.OParenthesis →
      parseDialectFace fmt (t :: rest) = .ok (f, ts') →
      FaceLoopRun fmt ts' (.ok (fs, rest')) →
      FaceLoopRun fmt (t :: rest) (.ok (f :: fs, rest'))
  | faceSeqErrF (t : Token) (rest : List Token) (f : DFace) (ts' : List Token)
      (e : List Token) :
      t.kind ≠ QuakeMapToken.CBrace → t.kind = QuakeMapToken.OParenthesis →
      parseDialectFace fmt (t :: rest) = .ok (f, ts') →
      FaceLoopRun fmt ts' (.error e) →
      FaceLoopRun fmt (t :: rest) (.error e)
  | faceErrF (t : Token) (rest : List Token) (e : List Token) :
      t.kind ≠ QuakeMapToken.CBrace → t.kind = QuakeMapToken.OParenthesis →
      parseDialectFace fmt (t :: rest) = .error e →
      FaceLoopRun fmt (t :: rest) (.error e)
  | badF (t : Token) (rest : List Token) :
      t.kind ≠ QuakeMapToken.CBrace → t.kind ≠ QuakeMapToken.OParenthesis →
      FaceLoopRun fmt (t :: rest) (.error rest)

/-- The entity body as a big-step derivation relation: property pairs are
accumulated through `parseEntityProperty` in stream order, brush blocks run
through `FaceLoopRun` with the section-7 recovery rule, and the entity's
closing `}` delivers the accumulated properties, brushes and error count. -/
inductive EntityBodyRun (fmt : MapFormat) :
    List Token → List EntityProperty × List String →
    Except (List Token) ((List EntityProperty × List (List DFace) × Nat) × List Token) → Prop
  | eofE (st : List EntityProperty × List String) : EntityBodyRun fmt [] st (.error [])
  | closeE (t : Token) (rest : List Token) (st : List EntityProperty × List String) :
      t.kind = QuakeMapToken.CBrace →
      EntityBodyRun fmt (t :: rest) st (.ok ((st.1, [], 0), rest))
  | propE (t : Token) (rest : List Token) (st : List EntityProperty × List String)
      (out : Except (List Token) ((List EntityProperty × List (List DFace) × Nat) × List Token)) :
      t.kind ≠ QuakeMapToken.CBrace → t.kind = QuakeMapToken.String →
      (nextToken rest).1.kind = QuakeMapToken.String →
      EntityBodyRun fmt (nextToken rest).2
        (parseEntityProperty st t.text (nextToken rest).1.text) out →
      EntityBodyRun fmt (t :: rest) st out
  | propBadE (t : Token) (rest : List Token) (st : List EntityProperty × List String) :
      t.kind ≠ QuakeMapToken.CBrace → t.kind = QuakeMapToken.String →
      (nextToken rest).1.kind ≠ QuakeMapToken.String →
      EntityBodyRun fmt (t :: rest) st (.error (nextToken rest).2)
  | brushOkE (t : Token) (rest : List Token) (st : List EntityProperty × List String)
      (fs : List DFace) (ts' : List Token) (props : List EntityProperty)
      (bs : List (List DFace)) (e : Nat) (rest' : List Token) :
      t.kind ≠ QuakeMapToken.CBrace → t.kind ≠ QuakeMapToken.String →
      t.kind = QuakeMapToken.OBrace →
      FaceLoopRun fmt rest (.ok (fs, ts')) →
      EntityBodyRun fmt ts' st (.ok ((props, bs, e), rest')) →
      EntityBodyRun fmt (t :: rest) st (.ok ((props, fs :: bs, e), rest'))
  | brushSeqErrE (t : Token) (rest : List Token) (st : List EntityProperty × List String)
      (fs : List DFace) (ts' : List Token) (e' : List Token) :
      t.kind ≠ QuakeMapToken.CBrace → t.kind ≠ QuakeMapToken.String →
      t.kind = QuakeMapToken.OBrace →
      FaceLoopRun fmt rest (.ok (fs, ts')) →
      EntityBodyRun fmt ts' st (.error e') →
      EntityBodyRun fmt (t :: rest) st (.error e')
  | brushErrE (t : Token) (rest : List Token) (st : List EntityProperty × List String)
      (epos : List Token) (props : List EntityProperty)
      (bs : List (List DFace)) (e : Nat) (rest' : List Token) :
      t.kind ≠ QuakeMapToken.CBrace → t.kind ≠ QuakeMapToken.String →
      t.kind = QuakeMapToken.OBrace →
      FaceLoopRun fmt rest (.error epos) →
      EntityBodyRun fmt (resync 1 epos) st (.ok ((props, bs, e), rest')) →
      EntityBodyRun fmt (t :: rest) st (.ok ((props, bs, e + 1), rest'))
  | brushErrSeqErrE (t : Token) (rest : List Token)
      (st : List EntityProperty × List String) (epos : List Token) (e' : List Token) :
      t.kind ≠ QuakeMapToken.CBrace → t.kind ≠ QuakeMapToken.String →
      t.kind = QuakeMapToken.OBrace →
      FaceLoopRun fmt rest (.error epos) →
      EntityBodyRun fmt (resync 1 epos) st (.error e') →
      EntityBodyRun fmt (t :: rest) st (.error e')
  | badE (t : Token) (rest : List Token) (st : List EntityProperty × List String) :
      t.kind ≠ QuakeMapToken.CBrace → t.kind ≠ QuakeMapToken.String →
      t.kind ≠ QuakeMapToken.OBrace →
      EntityBodyRun fmt (t :: rest) st (.error rest)

/-- The whole file as a big-step derivation relation: `{` opens an entity
(fresh accumulators), a completed entity is delivered to the builder in
order, a construct-local entity error resynchronizes and counts one error,
any other token at top level is one reported error, and EOF terminates
successfully (spec sections 4.2 and 7). -/
inductive MapRun (fmt : MapFormat) : List Token → List PEntity × Nat → Prop
  | eofM : MapRun fmt [] ([], 0)
  | entOkM (t : Token) (rest : List Token) (props : List EntityProperty)
      (bs : List (List DFace)) (e : Nat) (rest' : List Token)
      (ents : List PEntity) (errs : Nat) :
      t.kind = QuakeMapToken.OBrace →
      EntityBodyRun fmt rest ([], []) (.ok ((props, bs, e), rest')) →
      MapRun fmt rest' (ents, errs) →
      MapRun fmt (t :: rest) (⟨props, bs⟩ :: ents, e + errs)
  | entErrM (t : Token) (rest : List Token) (epos : List Token)
      (ents : List PEntity) (errs : Nat) :
      t.kind = QuakeMapToken.OBrace →
      EntityBodyRun fmt rest ([], []) (.error epos) →
      MapRun fmt (resync 1 epos) (ents, errs) →
      MapRun fmt (t :: rest) (ents, errs + 1)
  | skipM (t : Token) (rest : List Token) (ents : List PEntity) (errs : Nat) :
      t.kind ≠ QuakeMapToken.OBrace →
      MapRun fmt rest (ents, errs) →
      MapRun fmt (t :: rest) (ents, errs + 1)

/-! ## Bitmask arithmetic helpers -/

theorem or_ne_zero_iff (x y : Nat) : x ||| y ≠ 0 ↔ x ≠ 0 ∨ y ≠ 0 := by
  have h : x ||| y = 0 ↔ x = 0 ∧ y = 0 := by
    constructor
    · intro h
      constructor <;>
      · apply Nat.eq_of_testBit_eq
        intro i
        have := congrArg (fun n => Nat.testBit n i) h
        simp [Nat.testBit_or] at this
        simp [Nat.zero_testBit]
        tauto
    · rintro ⟨rfl, rfl⟩; rfl
  rw [ne_eq, h]; tauto

/-- Two primitive kinds share a set bit exactly when they are the same kind. -/
theorem kind_and_ne_zero_iff :
    ∀ k ∈ QuakeMapToken.kindList, ∀ x ∈ QuakeMapToken.kindList,
      (k &&& x ≠ 0 ↔ k = x) := by decide

/-- Membership-by-mask: for a primitive kind `k` and a mask built as a union
of primitive kinds, `k &&& mask ≠ 0` holds exactly when `k` is one of the
kinds in the union. -/
theorem kind_and_maskOf_ne_zero_iff
    (k : QuakeMapToken.Type') (hk : k ∈ QuakeMapToken.kindList)
    (ms : List QuakeMapToken.Type')
    (hms : ∀ x ∈ ms, x ∈ QuakeMapToken.kindList) :
    k &&& QuakeMapToken.maskOf ms ≠ 0 ↔ k ∈ ms := by
  induction ms with
  | nil =>
    simp [QuakeMapToken.maskOf, Nat.and_zero]
  | cons x ms ih =>
    have hx : x ∈ QuakeMapToken.kindList := hms x (List.mem_cons_self x ms)
    have hrest : ∀ y ∈ ms, y ∈ QuakeMapToken.kindList :=
      fun y hy => hms y (List.mem_cons_of_mem x hy)
    have hdistrib : k &&& QuakeMapToken.maskOf (x :: ms)
        = (k &&& x) ||| (k &&& QuakeMapToken.maskOf ms) := by
      show k &&& (x ||| QuakeMapToken.maskOf ms) = _
      exact Nat.and_or_distrib_left k x (QuakeMapToken.maskOf ms)
    rw [hdistrib, or_ne_zero_iff, List.mem_cons]
    rw [kind_and_ne_zero_iff k hk x hx, ih hrest]

/-- C8: every token-kind constant in `QuakeMapToken` is a distinct power of
two; hence for every primitive kind `k` and every mask `m` built as a union of
kinds, `(k &&& m) ≠ 0` holds exactly when `k` is one of the kinds in the
union; and `Number` equals the union `Integer | Decimal`. -/
theorem C8_token_kind_bitmask :
    QuakeMapToken.kindList.Pairwise (· ≠ ·)
    ∧ (∀ k ∈ QuakeMapToken.kindList, ∃ i, k = 2 ^ i)
    ∧ QuakeMapToken.Number = QuakeMapToken.Integer ||| QuakeMapToken.Decimal
    ∧ (∀ k ∈ QuakeMapToken.kindList, ∀ ms : List QuakeMapToken.Type',
        (∀ x ∈ ms, x ∈ QuakeMapToken.kindList) →
        (k &&& QuakeMapToken.maskOf ms ≠ 0 ↔ k ∈ ms)) := by
  refine ⟨by decide, ?_, rfl, ?_⟩
  · intro k hk
    fin_cases hk
    · exact ⟨0, rfl⟩
    · exact ⟨1, rfl⟩
    · exact ⟨2, rfl⟩
    · exact ⟨3, rfl⟩
    · exact ⟨4, rfl⟩
    · exact ⟨5, rfl⟩
    · exact ⟨6, rfl⟩
    · exact ⟨7, rfl⟩
    · exact ⟨8, rfl⟩
    · exact ⟨9, rfl⟩
    · exact ⟨10, rfl⟩
    · exact ⟨11, rfl⟩
  · exact fun k hk ms hms => kind_and_maskOf_ne_zero_iff k hk ms hms

/-- C8 witness: the Number mask test accepts an Integer token and rejects a
String token, by the main theorem applied at concrete kinds. -/
theorem C8_token_kind_bitmask_witness :
    (QuakeMapToken.Integer &&&
        QuakeMapToken.maskOf [QuakeMapToken.Integer, QuakeMapToken.Decimal] ≠ 0)
    ∧ ¬ (QuakeMapToken.String &&&
        QuakeMapToken.maskOf [QuakeMapToken.Integer, QuakeMapToken.Decimal] ≠ 0) := by
  constructor
  · exact (C8_token_kind_bitmask.2.2.2 QuakeMapToken.Integer (by decide)
      [QuakeMapToken.Integer, QuakeMapToken.Decimal] (by decide)).mpr (by decide)
  · intro h
    exact absurd ((C8_token_kind_bitmask.2.2.2 QuakeMapToken.String (by decide)
      [QuakeMapToken.Integer, QuakeMapToken.Decimal] (by decide)).mp h) (by decide)

/-! ## `parseFloatVector`: success characterization (C3) -/

/-- For a primitive kind, matching the `Number` mask means being `Integer` or
`Decimal`: both numeric sub-kinds are accepted, nothing else is. -/
theorem kind_and_number_ne_zero_iff :
    ∀ k ∈ QuakeMapToken.kindList,
      (k &&& QuakeMapToken.Number ≠ 0 ↔
        k = QuakeMapToken.Integer ∨ k = QuakeMapToken.Decimal) := by decide

/-- Completeness of the numeric loop: on a stream starting with `n` tokens
that all match the `Number` mask, the loop consumes exactly those tokens and
returns their values in order. -/
theorem parseNumbers_ok_of (mid rest : List Token)
    (h : ∀ t ∈ mid, t.kind &&& QuakeMapToken.Number ≠ 0) :
    parseNumbers mid.length (mid ++ rest) = .ok (mid.map Token.num, rest) := by
  induction mid with
  | nil => rfl
  | cons t mid ih =>
    have ht : t.kind &&& QuakeMapToken.Number ≠ 0 := h t (List.mem_cons_self t mid)
    have hmid : ∀ u ∈ mid, u.kind &&& QuakeMapToken.Number ≠ 0 :=
      fun u hu => h u (List.mem_cons_of_mem t hu)
    simp only [List.length_cons, List.cons_append, parseNumbers, nextToken,
      tokenHasType, ih hmid, List.map_cons]
    rw [if_pos (by simpa using ht)]

/-- Soundness of the numeric loop: a successful run of `parseNumbers n`
consumed exactly `n` leading tokens, all matching the `Number` mask, and
returned their values in order. -/
theorem parseNumbers_ok_elim (n : Nat) (ts : List Token) (vs : List ℚ)
    (rest : List Token) (h : parseNumbers n ts = .ok (vs, rest)) :
    ∃ mid, ts = mid ++ rest ∧ mid.length = n
      ∧ (∀ t ∈ mid, t.kind &&& QuakeMapToken.Number ≠ 0)
      ∧ vs = mid.map Token.num := by
  induction n generalizing ts vs with
  | zero =>
    simp only [parseNumbers] at h
    injection h with h'
    have hvs : ([] : List ℚ) = vs := congrArg Prod.fst h'
    have hrest : ts = rest := congrArg Prod.snd h'
    exact ⟨[], by simp [← hrest], rfl, by simp, hvs.symm⟩
  | succ n ih =>
    match ts with
    | [] =>
      have hno : parseNumbers (n + 1) [] = .error [] := by
        simp only [parseNumbers, nextToken, tokenHasType]
        rw [if_neg (by decide)]
      rw [hno] at h
      exact absurd h (by simp)
    | t :: ts' =>
      simp only [parseNumbers, nextToken, tokenHasType] at h
      by_cases hmask : t.kind &&& QuakeMapToken.Number ≠ 0
      · rw [if_pos (by simpa using hmask)] at h
        match hrec : parseNumbers n ts' with
        | .ok (vs', rest') =>
          rw [hrec] at h
          injection h with h'
          have hvs : t.num :: vs' = vs := congrArg Prod.fst h'
          have hrest : rest' = rest := congrArg Prod.snd h'
          rw [hrest] at hrec
          obtain ⟨mid, hts, hlen, hmid, hvs'⟩ := ih ts' vs' hrec
          refine ⟨t :: mid, ?_, by simp [hlen], ?_, ?_⟩
          · rw [List.cons_append, ← hts]
          · intro u hu
            rcases List.mem_cons.mp hu with h | h
            · exact h ▸ hmask
            · exact hmid u h
          · simp [← hvs, hvs']
        | .error e => rw [hrec] at h; exact absurd h (by simp)
      · rw [if_neg (by simpa using hmask)] at h
        exact absurd h (by simp)

/-- C3: `parseFloatVector S (o, c)` succeeds exactly when the next `S + 2`
tokens are one token of kind `o`, then `S` tokens each of kind `Integer` or
`Decimal` (both numeric sub-kinds accepted via the `Number` mask), then one
token of kind `c`; on success it consumes exactly those `S + 2` tokens and
returns the values of the `S` number tokens in order. -/
theorem C3_parseFloatVector_correct
    (S : Nat) (o c : QuakeMapToken.Type')
    (ho : o ∈ QuakeMapToken.kindList) (hc : c ∈ QuakeMapToken.kindList)
    (hoE : o ≠ QuakeMapToken.Eof) (hcE : c ≠ QuakeMapToken.Eof)
    (ts : List Token) (hts : ∀ t ∈ ts, t.kind ∈ QuakeMapToken.kindList) :
    (∀ vs rest, parseFloatVector S o c ts = .ok (vs, rest) →
      ∃ t0 mid t1, ts = t0 :: (mid ++ t1 :: rest) ∧ mid.length = S
        ∧ t0.kind = o
        ∧ (∀ t ∈ mid, t.kind = QuakeMapToken.Integer ∨ t.kind = QuakeMapToken.Decimal)
        ∧ t1.kind = c ∧ vs = mid.map Token.num)
    ∧ (∀ t0 mid t1 rest, ts = t0 :: (mid ++ t1 :: rest) → mid.length = S →
        t0.kind = o →
        (∀ t ∈ mid, t.kind = QuakeMapToken.Integer ∨ t.kind = QuakeMapToken.Decimal) →
        t1.kind = c →
        parseFloatVector S o c ts = .ok (mid.map Token.num, rest)) := by
  constructor
  · intro vs rest h
    match ts, hts with
    | [], _ =>
      have : QuakeMapToken.Eof &&& o = 0 := by
        by_contra hne
        exact hoE ((kind_and_ne_zero_iff QuakeMapToken.Eof (by decide) o ho).mp hne).symm
      simp [parseFloatVector, nextToken, tokenHasType, this] at h
    | t0 :: ts1, hts =>
      have ht0 : t0.kind ∈ QuakeMapToken.kindList := hts t0 (List.mem_cons_self ..)
      simp only [parseFloatVector, nextToken, tokenHasType] at h
      by_cases h0 : t0.kind &&& o ≠ 0
      · rw [if_pos (by simpa using h0)] at h
        have ht0o : t0.kind = o := (kind_and_ne_zero_iff t0.kind ht0 o ho).mp h0
        match hrec : parseNumbers S ts1 with
        | .ok (vs', ts2) =>
          rw [hrec] at h
          obtain ⟨mid, hts1, hlen, hmid, hvs'⟩ := parseNumbers_ok_elim S ts1 vs' ts2 hrec
          match ts2 with
          | [] =>
            have : QuakeMapToken.Eof &&& c = 0 := by
              by_contra hne
              exact hcE ((kind_and_ne_zero_iff QuakeMapToken.Eof (by decide) c hc).mp hne).symm
            simp [nextToken, tokenHasType, this] at h
          | t1 :: rest' =>
            simp only [nextToken] at h
            by_cases h1 : t1.kind &&& c ≠ 0
            · rw [if_pos (by simpa using h1)] at h
              have ht1 : t1.kind ∈ QuakeMapToken.kindList := by
                apply hts
                rw [hts1]
                exact List.mem_cons_of_mem _ (List.mem_append_right mid (List.mem_cons_self ..))
              have ht1c : t1.kind = c := (kind_and_ne_zero_iff t1.kind ht1 c hc).mp h1
              injection h with h'
              have hvs : vs = vs' := congrArg Prod.fst h'.symm
              have hrest : rest = rest' := congrArg Prod.snd h'.symm
              refine ⟨t0, mid, t1, ?_, hlen, ht0o, ?_, ht1c, hvs ▸ hvs'⟩
              · rw [hrest, ← hts1]
              · intro t htm
                have htl : t.kind ∈ QuakeMapToken.kindList := by
                  apply hts
                  rw [hts1]
                  exact List.mem_cons_of_mem _ (List.mem_append_left _ htm)
                exact (kind_and_number_ne_zero_iff t.kind htl).mp (hmid t htm)
            · rw [if_neg (by simpa using h1)] at h
              exact absurd h (by simp)
        | .error e => rw [hrec] at h; exact absurd h (by simp)
      · rw [if_neg (by simpa using h0)] at h
        exact absurd h (by simp)
  · rintro t0 mid t1 rest rfl hlen ht0 hmid ht1
    have hmask : ∀ t ∈ mid, t.kind &&& QuakeMapToken.Number ≠ 0 := by
      intro t htm
      rcases hmid t htm with h | h <;> rw [h] <;> decide
    have h0 : t0.kind &&& o ≠ 0 := by
      rw [ht0]
      exact (kind_and_ne_zero_iff o ho o ho).mpr rfl
    have h1 : t1.kind &&& c ≠ 0 := by
      rw [ht1]
      exact (kind_and_ne_zero_iff c hc c hc).mpr rfl
    simp only [parseFloatVector, nextToken, tokenHasType]
    rw [if_pos (by simpa using h0), ← hlen, parseNumbers_ok_of mid (t1 :: rest) hmask]
    simp only [nextToken]
    rw [if_pos (by simpa using h1)]

/-- C3 witness: a concrete three-component run between parentheses, with a
mix of integer and decimal tokens, evaluated through the main theorem. -/
theorem C3_parseFloatVector_correct_witness :
    parseFloatVector 3 QuakeMapToken.OParenthesis QuakeMapToken.CParenthesis
      [⟨QuakeMapToken.OParenthesis, 0, "("⟩, ⟨QuakeMapToken.Integer, 1, "1"⟩,
       ⟨QuakeMapToken.Decimal, 5/2, "2.5"⟩, ⟨QuakeMapToken.Integer, 3, "3"⟩,
       ⟨QuakeMapToken.CParenthesis, 0, ")"⟩]
      = .ok ([1, 5/2, 3], []) := by
  exact (C3_parseFloatVector_correct 3 QuakeMapToken.OParenthesis
    QuakeMapToken.CParenthesis (by decide) (by decide) (by decide) (by decide)
    _ (by decide)).2
    ⟨QuakeMapToken.OParenthesis, 0, "("⟩
    [⟨QuakeMapToken.Integer, 1, "1"⟩, ⟨QuakeMapToken.Decimal, 5/2, "2.5"⟩,
     ⟨QuakeMapToken.Integer, 3, "3"⟩]
    ⟨QuakeMapToken.CParenthesis, 0, ")"⟩ [] rfl rfl rfl (by decide) rfl

/-! ## `parseFloatVector`: failure behavior (C9) -/

/-- If the numeric loop hits a non-`Number` token after `j` matching tokens,
with `j` strictly below the requested count, it raises with the tokenizer
already advanced past the offending token. -/
theorem parseNumbers_error_at (pre : List Token) (tbad : Token)
    (rest : List Token) (n : Nat) (hlen : pre.length < n)
    (hpre : ∀ t ∈ pre, t.kind &&& QuakeMapToken.Number ≠ 0)
    (hbad : tbad.kind &&& QuakeMapToken.Number = 0) :
    parseNumbers n (pre ++ tbad :: rest) = .error rest := by
  induction pre generalizing n with
  | nil =>
    match n, hlen with
    | m + 1, _ =>
      simp only [List.nil_append, parseNumbers, nextToken, tokenHasType]
      rw [if_neg (by simp [hbad])]
  | cons t pre ih =>
    match n, hlen with
    | m + 1, hlen =>
      have ht : t.kind &&& QuakeMapToken.Number ≠ 0 := hpre t (List.mem_cons_self ..)
      have hpre' : ∀ u ∈ pre, u.kind &&& QuakeMapToken.Number ≠ 0 :=
        fun u hu => hpre u (List.mem_cons_of_mem t hu)
      have hlen' : pre.length < m := by simpa using Nat.lt_of_succ_lt_succ hlen
      simp only [List.cons_append, parseNumbers, nextToken, tokenHasType]
      rw [if_pos (by simpa using ht), ih m hlen' hpre']

/-- C9: `parseFloatVector` is not atomic on failure: when the token at
position `k` of the stream (`0 ≤ k ≤ S + 1`) is the first one failing its
expected-kind mask, the parse raises having already consumed the first
`k + 1` tokens, and the tokenizer position remains advanced past them — the
error's stream is exactly the remainder after those `k + 1` tokens. -/
theorem C9_parseFloatVector_not_atomic
    (S k : Nat) (o c : QuakeMapToken.Type')
    (pre : List Token) (tbad : Token) (rest : List Token)
    (hk : k ≤ S + 1) (hklen : pre.length = k)
    (hpre : ∀ i (h : i < pre.length),
      (pre.get ⟨i, h⟩).kind &&& expectedKindAt S o c i ≠ 0)
    (hbad : tbad.kind &&& expectedKindAt S o c k = 0) :
    parseFloatVector S o c (pre ++ tbad :: rest) = .error rest := by
  match pre, hklen with
  | [], hklen =>
    have hk0 : k = 0 := hklen.symm
    rw [hk0, expectedKindAt, if_pos rfl] at hbad
    simp only [List.nil_append, parseFloatVector, nextToken, tokenHasType]
    rw [if_neg (by simp [hbad])]
  | t0 :: mid, hklen =>
    have h0 : t0.kind &&& o ≠ 0 := by
      have := hpre 0 (by simp)
      rwa [expectedKindAt, if_pos rfl] at this
    have hmid : ∀ j (h : j < mid.length),
        (mid.get ⟨j, h⟩).kind &&& expectedKindAt S o c (j + 1) ≠ 0 := by
      intro j h
      exact hpre (j + 1) (by simpa using Nat.succ_lt_succ h)
    have hmidlen : mid.length + 1 = k := by simpa using hklen
    have hmidnum : ∀ t ∈ mid, t.kind &&& QuakeMapToken.Number ≠ 0 := by
      intro t htm
      obtain ⟨j, hjt⟩ := List.mem_iff_get.mp htm
      have hj := j.2
      have := hmid j.1 j.2
      rw [Fin.eta, hjt] at this
      rwa [expectedKindAt, if_neg (Nat.succ_ne_zero j.1),
        if_pos (by omega : j.1 + 1 ≤ S)] at this
    simp only [List.cons_append, parseFloatVector, nextToken, tokenHasType]
    rw [if_pos (by simpa using h0)]
    by_cases hkS : k ≤ S
    · -- failure inside the numeric loop
      have hbadn : tbad.kind &&& QuakeMapToken.Number = 0 := by
        rwa [expectedKindAt, if_neg (by omega : k ≠ 0), if_pos hkS] at hbad
      rw [parseNumbers_error_at mid tbad rest S (by omega) hmidnum hbadn]
    · -- all S numbers read; the closing-delimiter expect fails
      have hmidlenS : mid.length = S := by omega
      have hbadc : tbad.kind &&& c = 0 := by
        rwa [expectedKindAt, if_neg (by omega : k ≠ 0), if_neg (by omega : ¬ k ≤ S)] at hbad
      rw [← hmidlenS, parseNumbers_ok_of mid (tbad :: rest) hmidnum]
      simp only [nextToken]
      rw [if_neg (by simp [hbadc])]

/-- C9 witness: with `S = 3` and parenthesis delimiters, a stream whose
token at position 2 is a string rather than a number makes the parse fail
with exactly the first three tokens consumed. -/
theorem C9_parseFloatVector_not_atomic_witness :
    parseFloatVector 3 QuakeMapToken.OParenthesis QuakeMapToken.CParenthesis
      [⟨QuakeMapToken.OParenthesis, 0, "("⟩, ⟨QuakeMapToken.Integer, 1, "1"⟩,
       ⟨QuakeMapToken.String, 0, "oops"⟩, ⟨QuakeMapToken.Integer, 3, "3"⟩,
       ⟨QuakeMapToken.CParenthesis, 0, ")"⟩]
      = .error [⟨QuakeMapToken.Integer, 3, "3"⟩, ⟨QuakeMapToken.CParenthesis, 0, ")"⟩] := by
  exact C9_parseFloatVector_not_atomic 3 2 QuakeMapToken.OParenthesis
    QuakeMapToken.CParenthesis
    [⟨QuakeMapToken.OParenthesis, 0, "("⟩, ⟨QuakeMapToken.Integer, 1, "1"⟩]
    ⟨QuakeMapToken.String, 0, "oops"⟩
    [⟨QuakeMapToken.Integer, 3, "3"⟩, ⟨QuakeMapToken.CParenthesis, 0, ")"⟩]
    (by omega) rfl (by decide) (by decide)

/-! ## Entity property key uniqueness (C6) -/

/-- One `parseEntityProperty` step preserves the accumulation invariant: the
keys of the properties built so far are duplicate-free and the key
accumulator holds exactly those keys. -/
theorem parseEntityProperty_preserves
    (st : List EntityProperty × List String) (k v : String)
    (h1 : (st.1.map EntityProperty.key).Nodup)
    (h2 : st.2 = st.1.map EntityProperty.key) :
    ((parseEntityProperty st k v).1.map EntityProperty.key).Nodup
      ∧ (parseEntityProperty st k v).2
          = (parseEntityProperty st k v).1.map EntityProperty.key := by
  unfold parseEntityProperty
  by_cases hmem : k ∈ st.2
  · rw [if_pos hmem]
    exact ⟨h1, h2⟩
  · rw [if_neg hmem]
    rw [h2] at hmem
    constructor
    · rw [List.map_append]
      simp only [List.map_cons, List.map_nil]
      rw [List.nodup_append]
      refine ⟨h1, List.nodup_singleton k, ?_⟩
      intro a ha hk
      rw [List.mem_singleton] at hk
      exact hmem (hk ▸ ha)
    · simp [h2]

/-- The accumulation invariant holds after folding any list of pairs over
any starting state that satisfies it. -/
theorem accumulate_from_invariant (pairs : List (String × String))
    (st : List EntityProperty × List String)
    (h1 : (st.1.map EntityProperty.key).Nodup)
    (h2 : st.2 = st.1.map EntityProperty.key) :
    let out := pairs.foldl (fun st kv => parseEntityProperty st kv.1 kv.2) st
    (out.1.map EntityProperty.key).Nodup ∧ out.2 = out.1.map EntityProperty.key := by
  induction pairs generalizing st with
  | nil => exact ⟨h1, h2⟩
  | cons kv pairs ih =>
    obtain ⟨h1', h2'⟩ := parseEntityProperty_preserves st kv.1 kv.2 h1 h2
    exact ih (parseEntityProperty st kv.1 kv.2) h1' h2'

/-- C6: for every sequence of parsed `"key" "value"` pairs, the entity
accumulated from the empty state has duplicate-free property keys under
case-sensitive string comparison — and since every prefix of the sequence is
itself such a sequence, the invariant holds after every
`parseEntityProperty` step during accumulation; moreover each step preserves
the invariant. -/
theorem C6_entity_property_keys_unique :
    (∀ pairs : List (String × String),
      ((accumulateEntityProperties pairs).1.map EntityProperty.key).Nodup)
    ∧ (∀ (st : List EntityProperty × List String) (k v : String),
        (st.1.map EntityProperty.key).Nodup →
        st.2 = st.1.map EntityProperty.key →
        ((parseEntityProperty st k v).1.map EntityProperty.key).Nodup) := by
  constructor
  · intro pairs
    exact (accumulate_from_invariant pairs ([], []) (by simp) (by simp)).1
  · intro st k v h1 h2
    exact (parseEntityProperty_preserves st k v h1 h2).1

/-- C6 witness: a concrete accumulation with a duplicated key still yields
duplicate-free keys, via the main theorem. -/
theorem C6_entity_property_keys_unique_witness :
    ((accumulateEntityProperties
        [("classname", "worldspawn"), ("light", "300"), ("classname", "again")]).1.map
      EntityProperty.key).Nodup
    ∧ ((parseEntityProperty ([⟨"classname", "worldspawn"⟩], ["classname"])
          "origin" "0 0 0").1.map EntityProperty.key).Nodup :=
  ⟨C6_entity_property_keys_unique.1
    [("classname", "worldspawn"), ("light", "300"), ("classname", "again")],
   C6_entity_property_keys_unique.2
    ([⟨"classname", "worldspawn"⟩], ["classname"]) "origin" "0 0 0"
    (by simp) (by simp)⟩

/-! ## Patch grid validity (C5) -/

/-- Packaged completeness of `parseFloatVector`: a stream beginning with a
matching opener, exactly `mid.length` number-mask tokens, and a matching
closer parses to the numeric values of `mid` with the rest untouched. -/
theorem parseFloatVector_ok_of (o c : QuakeMapToken.Type') (t0 : Token)
    (mid : List Token) (t1 : Token) (rest : List Token)
    (h0 : t0.kind &&& o ≠ 0)
    (hmid : ∀ t ∈ mid, t.kind &&& QuakeMapToken.Number ≠ 0)
    (h1 : t1.kind &&& c ≠ 0) :
    parseFloatVector mid.length o c (t0 :: (mid ++ t1 :: rest))
      = .ok (mid.map Token.num, rest) := by
  simp only [parseFloatVector, nextToken, tokenHasType]
  rw [if_pos (by simpa using h0), parseNumbers_ok_of mid (t1 :: rest) hmid]
  simp only [nextToken]
  rw [if_pos (by simpa using h1)]

/-- Completeness of the control-point loop: the canonical encoding of a list
of five-component control points parses back to exactly that list, in
order. -/
theorem parseControlPoints_ok_of (groups : List (List ℚ)) (rest : List Token)
    (h : ∀ g ∈ groups, g.length = 5) :
    parseControlPoints groups.length (groups.flatMap pointToks ++ rest)
      = .ok (groups, rest) := by
  induction groups with
  | nil => rfl
  | cons g groups ih =>
    have hg : g.length = 5 := h g (List.mem_cons_self ..)
    have hrest : ∀ g' ∈ groups, g'.length = 5 :=
      fun g' hg' => h g' (List.mem_cons_of_mem g hg')
    have hmask : ∀ t ∈ g.map (fun q => (⟨QuakeMapToken.Decimal, q, ""⟩ : Token)),
        t.kind &&& QuakeMapToken.Number ≠ 0 := by
      intro t ht
      obtain ⟨q, _, rfl⟩ := List.mem_map.mp ht
      exact (by decide : QuakeMapToken.Decimal &&& QuakeMapToken.Number ≠ 0)
    have hlen : (g.map (fun q => (⟨QuakeMapToken.Decimal, q, ""⟩ : Token))).length = 5 := by
      simpa using hg
    have hfv := parseFloatVector_ok_of QuakeMapToken.OParenthesis
      QuakeMapToken.CParenthesis ⟨QuakeMapToken.OParenthesis, 0, "("⟩
      (g.map (fun q => (⟨QuakeMapToken.Decimal, q, ""⟩ : Token)))
      ⟨QuakeMapToken.CParenthesis, 0, ")"⟩ (groups.flatMap pointToks ++ rest)
      (by decide) hmask (by decide)
    rw [hlen] at hfv
    have hnum : (g.map (fun q => (⟨QuakeMapToken.Decimal, q, ""⟩ : Token))).map Token.num = g := by
      rw [List.map_map]
      exact List.map_id'' (fun _ => rfl) g
    rw [hnum] at hfv
    have hshape : ((pointToks g ++ groups.flatMap pointToks) ++ rest : List Token)
        = ⟨QuakeMapToken.OParenthesis, 0, "("⟩ ::
            (g.map (fun q => (⟨QuakeMapToken.Decimal, q, ""⟩ : Token)) ++
              (⟨QuakeMapToken.CParenthesis, 0, ")"⟩ : Token) ::
                (groups.flatMap pointToks ++ rest)) := by
      simp [pointToks, List.append_assoc]
    simp only [List.length_cons, List.flatMap_cons, parseControlPoints]
    rw [hshape, hfv]
    simp [ih hrest]

/-- C5: a patch declaring an `R×C` grid with `R` and `C` each odd integers
`≥ 3` reads exactly `R×C` control points in row-major (stream) order and
yields the completed `Patch` for the builder; a declaration where `R` or `C`
is even or below 3 raises the construct-local `MalformedPatchGridError` — the
grid is never silently clamped — returned as a value for the enclosing
scope's recovery, exactly like other construct-local errors. -/
theorem C5_patch_grid_validity :
    (∀ (r c : Nat) (groups : List (List ℚ)) (rest : List Token),
      r % 2 = 1 → 3 ≤ r → c % 2 = 1 → 3 ≤ c →
      groups.length = r * c → (∀ g ∈ groups, g.length = 5) →
      parsePatch r c (groups.flatMap pointToks ++ rest) = .ok (⟨r, c, groups⟩, rest))
    ∧ (∀ (r c : Nat) (ts : List Token),
        ¬ (r % 2 = 1 ∧ 3 ≤ r ∧ c % 2 = 1 ∧ 3 ≤ c) →
        parsePatch r c ts = .error .malformedPatchGrid) := by
  constructor
  · intro r c groups rest hr1 hr2 hc1 hc2 hlen hg
    unfold parsePatch
    rw [if_pos ⟨hr1, hr2, hc1, hc2⟩, ← hlen, parseControlPoints_ok_of groups rest hg]
  · intro r c ts hbad
    unfold parsePatch
    rw [if_neg hbad]

/-- C5 witness: a 3×3 declaration with nine control points parses to the
full patch; the 3×2 declaration of the spec's example is a
`MalformedPatchGridError`; both through the main theorem. -/
theorem C5_patch_grid_validity_witness :
    parsePatch 3 3 ((List.replicate 9 [0, 0, 0, 0, 0]).flatMap pointToks)
        = .ok (⟨3, 3, List.replicate 9 [0, 0, 0, 0, 0]⟩, [])
    ∧ parsePatch 3 2 [] = .error .malformedPatchGrid := by
  constructor
  · have h := C5_patch_grid_validity.1 3 3 (List.replicate 9 [0, 0, 0, 0, 0]) []
      rfl (by omega) rfl (by omega) (by simp) (by
        intro g hg
        rw [List.eq_of_mem_replicate hg]
        rfl)
    simpa using h
  · exact C5_patch_grid_validity.2 3 2 [] (by omega)

/-! ## Block-kind disambiguation (C4) -/

/-- C4: a block beginning `{` `(` `(` is always detected as a primitive
brush (its face-plane point groups), never as a plain brush's bare plane
points — and the decision is made by bounded lookahead past the first `(`:
a block beginning `{` `(` `number` is detected as a plain brush, so the two
cases agree on the first token after `{` and are separated only by the
second, which a single one-token peek could not do.  The detection takes no
dialect input at all, so the result holds regardless of declared dialect. -/
theorem C4_brush_primitive_lookahead :
    (∀ (t0 t1 t2 : Token) (rest : List Token),
      t0.kind = QuakeMapToken.OBrace →
      t1.kind = QuakeMapToken.OParenthesis →
      t2.kind = QuakeMapToken.OParenthesis →
      detectBlockKind (t0 :: t1 :: t2 :: rest) = .brushPrimitive)
    ∧ (∀ (t0 t1 t2 : Token) (rest : List Token),
        t0.kind = QuakeMapToken.OBrace →
        t1.kind = QuakeMapToken.OParenthesis →
        t2.kind &&& QuakeMapToken.Number ≠ 0 →
        detectBlockKind (t0 :: t1 :: t2 :: rest) = .plainBrush) := by
  constructor
  · intro t0 t1 t2 rest h0 h1 h2
    have h1' : t1.kind ≠ QuakeMapToken.String := by rw [h1]; decide
    simp [detectBlockKind, h0, h1, h1', h2]
    intro h
    exact absurd h (by decide)
  · intro t0 t1 t2 rest h0 h1 h2
    have h2' : t2.kind ≠ QuakeMapToken.OParenthesis := by
      intro heq
      rw [heq] at h2
      exact h2 (by decide)
    have h1' : t1.kind ≠ QuakeMapToken.String := by rw [h1]; decide
    simp [detectBlockKind, h0, h1, h1', h2, h2']
    intro h
    exact absurd h (by decide)

/-- C4 witness: the two concrete streams `{ ( (` and `{ ( 0` share their
first two tokens yet are classified differently, via the main theorem. -/
theorem C4_brush_primitive_lookahead_witness :
    detectBlockKind
        [⟨QuakeMapToken.OBrace, 0, "\x7b"⟩, ⟨QuakeMapToken.OParenthesis, 0, "("⟩,
         ⟨QuakeMapToken.OParenthesis, 0, "("⟩] = .brushPrimitive
    ∧ detectBlockKind
        [⟨QuakeMapToken.OBrace, 0, "\x7b"⟩, ⟨QuakeMapToken.OParenthesis, 0, "("⟩,
         ⟨QuakeMapToken.Integer, 0, "0"⟩] = .plainBrush := by
  constructor
  · exact C4_brush_primitive_lookahead.1 ⟨QuakeMapToken.OBrace, 0, "\x7b"⟩
      ⟨QuakeMapToken.OParenthesis, 0, "("⟩ ⟨QuakeMapToken.OParenthesis, 0, "("⟩ []
      rfl rfl rfl
  · exact C4_brush_primitive_lookahead.2 ⟨QuakeMapToken.OBrace, 0, "\x7b"⟩
      ⟨QuakeMapToken.OParenthesis, 0, "("⟩ ⟨QuakeMapToken.Integer, 0, "0"⟩ []
      rfl rfl (by decide)

/-! ## Malformed-brush isolation (C1) -/

/-- A parenthesized point group parses back to its numbers with the rest of
the stream untouched. -/
theorem parseFloatVector_pointToks (g : List ℚ) (R : List Token) :
    parseFloatVector g.length QuakeMapToken.OParenthesis QuakeMapToken.CParenthesis
      (pointToks g ++ R) = .ok (g, R) := by
  have hmask : ∀ t ∈ g.map (fun q => (⟨QuakeMapToken.Decimal, q, ""⟩ : Token)),
      t.kind &&& QuakeMapToken.Number ≠ 0 := by
    intro t ht
    obtain ⟨q, _, rfl⟩ := List.mem_map.mp ht
    exact (by decide : QuakeMapToken.Decimal &&& QuakeMapToken.Number ≠ 0)
  have hfv := parseFloatVector_ok_of QuakeMapToken.OParenthesis
    QuakeMapToken.CParenthesis ⟨QuakeMapToken.OParenthesis, 0, "("⟩
    (g.map (fun q => (⟨QuakeMapToken.Decimal, q, ""⟩ : Token)))
    ⟨QuakeMapToken.CParenthesis, 0, ")"⟩ R (by decide) hmask (by decide)
  have hnum : (g.map (fun q => (⟨QuakeMapToken.Decimal, q, ""⟩ : Token))).map Token.num = g := by
    rw [List.map_map]
    exact List.map_id'' (fun _ => rfl) g
  have hlen : (g.map (fun q => (⟨QuakeMapToken.Decimal, q, ""⟩ : Token))).length = g.length :=
    List.length_map ..
  rw [hlen, hnum] at hfv
  have hshape : (pointToks g ++ R : List Token)
      = ⟨QuakeMapToken.OParenthesis, 0, "("⟩ ::
          (g.map (fun q => (⟨QuakeMapToken.Decimal, q, ""⟩ : Token)) ++
            (⟨QuakeMapToken.CParenthesis, 0, ")"⟩ : Token) :: R) := by
    simp [pointToks, List.append_assoc]
  rw [hshape, hfv]

/-- A face's canonical token encoding parses back to exactly that face. -/
theorem parseFace_ok (f : Face) (rest : List Token) (hf : WellFormedFace f) :
    parseFace (faceToks f ++ rest) = .ok (f, rest) := by
  obtain ⟨h1, h2, h3, h5⟩ := hf
  have e1 := parseFloatVector_pointToks f.p1
    (pointToks f.p2 ++ (pointToks f.p3 ++
      ((⟨QuakeMapToken.String, 0, f.texture⟩ : Token) ::
        (f.attribs.map (fun q => ⟨QuakeMapToken.Decimal, q, ""⟩) ++ rest))))
  have e2 := parseFloatVector_pointToks f.p2
    (pointToks f.p3 ++
      ((⟨QuakeMapToken.String, 0, f.texture⟩ : Token) ::
        (f.attribs.map (fun q => ⟨QuakeMapToken.Decimal, q, ""⟩) ++ rest)))
  have e3 := parseFloatVector_pointToks f.p3
    ((⟨QuakeMapToken.String, 0, f.texture⟩ : Token) ::
      (f.attribs.map (fun q => ⟨QuakeMapToken.Decimal, q, ""⟩) ++ rest))
  rw [h1] at e1
  rw [h2] at e2
  rw [h3] at e3
  have hmask : ∀ t ∈ f.attribs.map (fun q => (⟨QuakeMapToken.Decimal, q, ""⟩ : Token)),
      t.kind &&& QuakeMapToken.Number ≠ 0 := by
    intro t ht
    obtain ⟨q, _, rfl⟩ := List.mem_map.mp ht
    exact (by decide : QuakeMapToken.Decimal &&& QuakeMapToken.Number ≠ 0)
  have hnums := parseNumbers_ok_of
    (f.attribs.map (fun q => (⟨QuakeMapToken.Decimal, q, ""⟩ : Token))) rest hmask
  have hnum : (f.attribs.map (fun q => (⟨QuakeMapToken.Decimal, q, ""⟩ : Token))).map
      Token.num = f.attribs := by
    rw [List.map_map]
    exact List.map_id'' (fun _ => rfl) f.attribs
  rw [List.length_map, h5, hnum] at hnums
  have hshape : (faceToks f ++ rest : List Token)
      = pointToks f.p1 ++ (pointToks f.p2 ++ (pointToks f.p3 ++
          ((⟨QuakeMapToken.String, 0, f.texture⟩ : Token) ::
            (f.attribs.map (fun q => ⟨QuakeMapToken.Decimal, q, ""⟩) ++ rest)))) := by
    simp [faceToks, List.append_assoc]
  simp only [parseFace, hshape, e1, e2, e3, nextToken, tokenHasType, hnums]
  simp [QuakeMapToken.String]

/-- Parsing a brush body whose stream starts with one encoded face parses
that face and continues on the remainder of the stream. -/
theorem parseBrushBody_step (fuel : Nat) (f : Face) (R : List Token)
    (hwff : WellFormedFace f) :
    parseBrushBody (fuel + 1) (faceToks f ++ R)
      = match parseBrushBody fuel R with
        | .ok (fs, rest') => .ok (f :: fs, rest')
        | .error e => .error e := by
  have hface := parseFace_ok f R hwff
  simp only [faceToks, pointToks, List.cons_append, List.append_assoc,
    List.singleton_append] at hface ⊢
  simp only [parseBrushBody]
  rw [if_neg (by decide : ¬ QuakeMapToken.OParenthesis = QuakeMapToken.CBrace)]
  rw [if_pos trivial, hface]

/-- A brush body made of encoded faces followed by the closing brace parses
to exactly those faces, given one unit of fuel per face plus one. -/
theorem parseBrushBody_ok (fs : List Face) (rest : List Token) (fuel : Nat)
    (hwf : ∀ f ∈ fs, WellFormedFace f) (hfuel : fs.length < fuel) :
    parseBrushBody fuel
        (fs.flatMap faceToks ++ ((⟨QuakeMapToken.CBrace, 0, "\x7d"⟩ : Token) :: rest))
      = .ok (fs, rest) := by
  induction fs generalizing fuel with
  | nil =>
    match fuel, hfuel with
    | fuel + 1, _ =>
      simp [parseBrushBody]
  | cons f fs ih =>
    match fuel, hfuel with
    | fuel + 1, hfuel =>
      have hwff : WellFormedFace f := hwf f (List.mem_cons_self ..)
      have hwf' : ∀ g ∈ fs, WellFormedFace g := fun g hg => hwf g (List.mem_cons_of_mem f hg)
      have hfuel' : fs.length < fuel := by simpa using Nat.lt_of_succ_lt_succ hfuel
      have hstep := parseBrushBody_step fuel f
        (fs.flatMap faceToks ++ ((⟨QuakeMapToken.CBrace, 0, "\x7d"⟩ : Token) :: rest)) hwff
      have hflat : ((f :: fs).flatMap faceToks ++
            ((⟨QuakeMapToken.CBrace, 0, "\x7d"⟩ : Token) :: rest) : List Token)
          = faceToks f ++ (fs.flatMap faceToks ++
              ((⟨QuakeMapToken.CBrace, 0, "\x7d"⟩ : Token) :: rest)) := by
        simp [List.append_assoc]
      rw [hflat, hstep, ih fuel hwf' hfuel']

/-- A brush body whose encoded faces are followed by a token that neither
opens a face nor closes the brush raises an `UnexpectedTokenError` with that
token consumed: the error payload is the stream right after it. -/
theorem parseBrushBody_error_after (gs : List Face) (u : Token) (tail : List Token)
    (fuel : Nat) (hwf : ∀ f ∈ gs, WellFormedFace f) (hfuel : gs.length < fuel)
    (hu1 : u.kind ≠ QuakeMapToken.CBrace) (hu2 : u.kind ≠ QuakeMapToken.OParenthesis) :
    parseBrushBody fuel (gs.flatMap faceToks ++ (u :: tail)) = .error tail := by
  induction gs generalizing fuel with
  | nil =>
    match fuel, hfuel with
    | fuel + 1, _ =>
      simp only [List.flatMap_nil, List.nil_append, parseBrushBody]
      rw [if_neg hu1, if_neg hu2]
  | cons f gs ih =>
    match fuel, hfuel with
    | fuel + 1, hfuel =>
      have hwff : WellFormedFace f := hwf f (List.mem_cons_self ..)
      have hwf' : ∀ g ∈ gs, WellFormedFace g := fun g hg => hwf g (List.mem_cons_of_mem f hg)
      have hfuel' : gs.length < fuel := by simpa using Nat.lt_of_succ_lt_succ hfuel
      have hstep := parseBrushBody_step fuel f (gs.flatMap faceToks ++ (u :: tail)) hwff
      have hflat : ((f :: gs).flatMap faceToks ++ (u :: tail) : List Token)
          = faceToks f ++ (gs.flatMap faceToks ++ (u :: tail)) := by
        simp [List.append_assoc]
      rw [hflat, hstep, ih fuel hwf' hfuel']

/-- Resynchronization over brace-free garbage lands right after the closing
brace at the same depth. -/
theorem resync_skips (junk : List Token) (rest : List Token)
    (h : ∀ t ∈ junk, t.kind ≠ QuakeMapToken.OBrace ∧ t.kind ≠ QuakeMapToken.CBrace) :
    resync 1 (junk ++ ((⟨QuakeMapToken.CBrace, 0, "\x7d"⟩ : Token) :: rest)) = rest := by
  induction junk with
  | nil =>
    simp [resync]
  | cons t junk ih =>
    obtain ⟨ht1, ht2⟩ := h t (List.mem_cons_self ..)
    have h' : ∀ u ∈ junk, u.kind ≠ QuakeMapToken.OBrace ∧ u.kind ≠ QuakeMapToken.CBrace :=
      fun u hu => h u (List.mem_cons_of_mem t hu)
    simp only [List.cons_append, resync]
    rw [if_neg ht2, if_neg ht1]
    simpa using ih h'

/-- Each face encoding contributes at least one token. -/
theorem flatMap_faceToks_length (fs : List Face) :
    fs.length ≤ (fs.flatMap faceToks).length := by
  induction fs with
  | nil => simp
  | cons f fs ih =>
    have hpos : 1 ≤ (faceToks f).length := by
      simp [faceToks, pointToks]
    simp only [List.flatMap_cons, List.length_append, List.length_cons]
    omega

/-- One-step unfolding of the brush-block loop on a nonempty stream. -/
theorem parseBrushBlocks_cons (fuel : Nat) (t : Token) (rest : List Token) :
    parseBrushBlocks (fuel + 1) (t :: rest)
      = if t.kind = QuakeMapToken.CBrace then ([], 0)
        else if t.kind = QuakeMapToken.OBrace then
          match parseBrushBody fuel rest with
          | .ok (faces, ts') =>
            let (bs, e) := parseBrushBlocks fuel ts'
            (faces :: bs, e)
          | .error epos =>
            let (bs, e) := parseBrushBlocks fuel (resync 1 epos)
            (bs, e + 1)
        else
          let (bs, e) := parseBrushBlocks fuel rest
          (bs, e + 1) := rfl

/-- The brush-block loop on the recovery scenario, at any sufficient fuel:
a well-formed brush, then a malformed brush (some well-formed faces, then an
unexpected token and brace-free garbage before its closing brace), then a
well-formed brush, then the entity close.  Exactly the two well-formed
brushes are delivered and exactly one error is reported. -/
theorem parseBrushBlocks_recovery
    (fs1 fs2 gs : List Face) (u : Token) (tail : List Token) (fuel : Nat)
    (hwf1 : ∀ f ∈ fs1, WellFormedFace f) (hwf2 : ∀ f ∈ fs2, WellFormedFace f)
    (hwfg : ∀ f ∈ gs, WellFormedFace f)
    (hu1 : u.kind ≠ QuakeMapToken.CBrace) (hu2 : u.kind ≠ QuakeMapToken.OParenthesis)
    (htail : ∀ t ∈ tail, t.kind ≠ QuakeMapToken.OBrace ∧ t.kind ≠ QuakeMapToken.CBrace)
    (hfuel : fs1.length + gs.length + fs2.length + 4 ≤ fuel) :
    parseBrushBlocks fuel
      (brushToks fs1 ++
        ((⟨QuakeMapToken.OBrace, 0, "\x7b"⟩ : Token) ::
          (gs.flatMap faceToks ++
            (u :: (tail ++
              ((⟨QuakeMapToken.CBrace, 0, "\x7d"⟩ : Token) ::
                (brushToks fs2 ++ [⟨QuakeMapToken.CBrace, 0, "\x7d"⟩])))))))
      = ([fs1, fs2], 1) := by
  match fuel, hfuel with
  | F + 4, hfuel =>
    have hCB : ¬ (⟨QuakeMapToken.OBrace, 0, "\x7b"⟩ : Token).kind = QuakeMapToken.CBrace := by
      decide
    have hOB : (⟨QuakeMapToken.OBrace, 0, "\x7b"⟩ : Token).kind = QuakeMapToken.OBrace := by
      decide
    have step4 : parseBrushBlocks (F + 1)
        [(⟨QuakeMapToken.CBrace, 0, "\x7d"⟩ : Token)] = ([], 0) := by
      rw [parseBrushBlocks_cons]
      rw [if_pos (by decide :
        (⟨QuakeMapToken.CBrace, 0, "\x7d"⟩ : Token).kind = QuakeMapToken.CBrace)]
    have step3 : parseBrushBlocks (F + 2)
        (brushToks fs2 ++ [⟨QuakeMapToken.CBrace, 0, "\x7d"⟩]) = ([fs2], 0) := by
      have hbody := parseBrushBody_ok fs2
        [(⟨QuakeMapToken.CBrace, 0, "\x7d"⟩ : Token)] (F + 1) hwf2 (by omega)
      have hshape : (brushToks fs2 ++ [⟨QuakeMapToken.CBrace, 0, "\x7d"⟩] : List Token)
          = (⟨QuakeMapToken.OBrace, 0, "\x7b"⟩ : Token) ::
              (fs2.flatMap faceToks ++
                ((⟨QuakeMapToken.CBrace, 0, "\x7d"⟩ : Token) ::
                  [⟨QuakeMapToken.CBrace, 0, "\x7d"⟩])) := by
        simp [brushToks]
      rw [hshape, parseBrushBlocks_cons, if_neg hCB, if_pos hOB, hbody]
      have hred : (match parseBrushBlocks (F + 1)
            [(⟨QuakeMapToken.CBrace, 0, "\x7d"⟩ : Token)] with
          | (bs, e) => ((fs2 :: bs, e) : List (List Face) × Nat)) = ([fs2], 0) := by
        rw [step4]
      exact hred
    have step2 : parseBrushBlocks (F + 3)
        ((⟨QuakeMapToken.OBrace, 0, "\x7b"⟩ : Token) ::
          (gs.flatMap faceToks ++
            (u :: (tail ++
              ((⟨QuakeMapToken.CBrace, 0, "\x7d"⟩ : Token) ::
                (brushToks fs2 ++ [⟨QuakeMapToken.CBrace, 0, "\x7d"⟩]))))))
        = ([fs2], 1) := by
      have hbody := parseBrushBody_error_after gs u
        (tail ++ ((⟨QuakeMapToken.CBrace, 0, "\x7d"⟩ : Token) ::
          (brushToks fs2 ++ [⟨QuakeMapToken.CBrace, 0, "\x7d"⟩])))
        (F + 2) hwfg (by omega) hu1 hu2
      have hres := resync_skips tail
        (brushToks fs2 ++ [⟨QuakeMapToken.CBrace, 0, "\x7d"⟩]) htail
      rw [parseBrushBlocks_cons, if_neg hCB, if_pos hOB, hbody]
      have hred : (match parseBrushBlocks (F + 2)
            (resync 1 (tail ++ ((⟨QuakeMapToken.CBrace, 0, "\x7d"⟩ : Token) ::
              (brushToks fs2 ++ [⟨QuakeMapToken.CBrace, 0, "\x7d"⟩])))) with
          | (bs, e) => ((bs, e + 1) : List (List Face) × Nat)) = ([fs2], 1) := by
        rw [hres, step3]
      exact hred
    have hbody := parseBrushBody_ok fs1
      ((⟨QuakeMapToken.OBrace, 0, "\x7b"⟩ : Token) ::
        (gs.flatMap faceToks ++
          (u :: (tail ++
            ((⟨QuakeMapToken.CBrace, 0, "\x7d"⟩ : Token) ::
              (brushToks fs2 ++ [⟨QuakeMapToken.CBrace, 0, "\x7d"⟩]))))))
      (F + 3) hwf1 (by omega)
    have hshape : (brushToks fs1 ++
          ((⟨QuakeMapToken.OBrace, 0, "\x7b"⟩ : Token) ::
            (gs.flatMap faceToks ++
              (u :: (tail ++
                ((⟨QuakeMapToken.CBrace, 0, "\x7d"⟩ : Token) ::
                  (brushToks fs2 ++ [⟨QuakeMapToken.CBrace, 0, "\x7d"⟩])))))) : List Token)
        = (⟨QuakeMapToken.OBrace, 0, "\x7b"⟩ : Token) ::
            (fs1.flatMap faceToks ++
              ((⟨QuakeMapToken.CBrace, 0, "\x7d"⟩ : Token) ::
                ((⟨QuakeMapToken.OBrace, 0, "\x7b"⟩ : Token) ::
                  (gs.flatMap faceToks ++
                    (u :: (tail ++
                      ((⟨QuakeMapToken.CBrace, 0, "\x7d"⟩ : Token) ::
                        (brushToks fs2 ++ [⟨QuakeMapToken.CBrace, 0, "\x7d"⟩])))))))) := by
      simp [brushToks]
    rw [hshape, parseBrushBlocks_cons, if_neg hCB, if_pos hOB, hbody]
    have hred : (match parseBrushBlocks (F + 3)
          ((⟨QuakeMapToken.OBrace, 0, "\x7b"⟩ : Token) ::
            (gs.flatMap faceToks ++
              (u :: (tail ++
                ((⟨QuakeMapToken.CBrace, 0, "\x7d"⟩ : Token) ::
                  (brushToks fs2 ++ [⟨QuakeMapToken.CBrace, 0, "\x7d"⟩])))))) with
        | (bs, e) => ((fs1 :: bs, e) : List (List Face) × Nat)) = ([fs1, fs2], 1) := by
      rw [step2]
    exact hred

/-- C1: for every input whose entity body is a well-formed brush, then a
syntactically malformed brush (`{`, any well-formed faces, then a token that
opens no face and closes no brush, then brace-free garbage, then `}`), then a
well-formed brush, then the entity's closing `}`: the parse reports exactly
one error through `ParserStatus.error`, discards only the malformed brush,
resynchronizes to the next balanced closing delimiter at the same nesting
depth (the malformed brush's own `}`), and still delivers both well-formed
brushes to the builder — the construct-local `UnexpectedTokenError` is
consumed by the block loop, which returns normally instead of unwinding. -/
theorem C1_malformed_brush_isolation
    (fs1 fs2 gs : List Face) (u : Token) (tail : List Token)
    (hwf1 : ∀ f ∈ fs1, WellFormedFace f) (hwf2 : ∀ f ∈ fs2, WellFormedFace f)
    (hwfg : ∀ f ∈ gs, WellFormedFace f)
    (hu1 : u.kind ≠ QuakeMapToken.CBrace) (hu2 : u.kind ≠ QuakeMapToken.OParenthesis)
    (htail : ∀ t ∈ tail, t.kind ≠ QuakeMapToken.OBrace ∧ t.kind ≠ QuakeMapToken.CBrace) :
    parseEntityBrushes
      (brushToks fs1 ++
        ((⟨QuakeMapToken.OBrace, 0, "\x7b"⟩ : Token) ::
          (gs.flatMap faceToks ++
            (u :: (tail ++
              ((⟨QuakeMapToken.CBrace, 0, "\x7d"⟩ : Token) ::
                (brushToks fs2 ++ [⟨QuakeMapToken.CBrace, 0, "\x7d"⟩])))))))
      = ([fs1, fs2], 1) := by
  unfold parseEntityBrushes
  apply parseBrushBlocks_recovery fs1 fs2 gs u tail _ hwf1 hwf2 hwfg hu1 hu2 htail
  have h1 := flatMap_faceToks_length fs1
  have h2 := flatMap_faceToks_length fs2
  have hg := flatMap_faceToks_length gs
  simp only [brushToks, List.length_append, List.length_cons, List.length_map]
  omega

/-- C1 witness: a concrete file with one well-formed one-face brush, then a
brush broken by a stray string token, then another well-formed brush, parsed
through the main theorem: both good brushes are delivered and exactly one
error is reported. -/
theorem C1_malformed_brush_isolation_witness :
    parseEntityBrushes
      (brushToks [⟨[0, 0, 0], [0, 1, 0], [1, 0, 0], "tex", [0, 0, 0, 1, 1]⟩] ++
        ((⟨QuakeMapToken.OBrace, 0, "\x7b"⟩ : Token) ::
          (([] : List Face).flatMap faceToks ++
            ((⟨QuakeMapToken.String, 0, "oops"⟩ : Token) :: (([] : List Token) ++
              ((⟨QuakeMapToken.CBrace, 0, "\x7d"⟩ : Token) ::
                (brushToks [⟨[0, 0, 0], [0, 1, 0], [1, 0, 0], "tex", [0, 0, 0, 1, 1]⟩] ++
                  [⟨QuakeMapToken.CBrace, 0, "\x7d"⟩])))))))
      = ([[⟨[0, 0, 0], [0, 1, 0], [1, 0, 0], "tex", [0, 0, 0, 1, 1]⟩],
          [⟨[0, 0, 0], [0, 1, 0], [1, 0, 0], "tex", [0, 0, 0, 1, 1]⟩]], 1) := by
  apply C1_malformed_brush_isolation
  · intro f hf
    rw [List.mem_singleton] at hf
    subst hf
    exact ⟨rfl, rfl, rfl, rfl⟩
  · intro f hf
    rw [List.mem_singleton] at hf
    subst hf
    exact ⟨rfl, rfl, rfl, rfl⟩
  · intro f hf
    exact absurd hf (List.not_mem_nil f)
  · decide
  · decide
  · intro t ht
    exact absurd ht (List.not_mem_nil t)

/-! ## Stream consumption bounds -/

/-- A successful numeric loop leaves a suffix of its input. -/
theorem parseNumbers_ok_length (n : Nat) (ts : List Token) (vs : List ℚ)
    (rest : List Token) (h : parseNumbers n ts = .ok (vs, rest)) :
    rest.length ≤ ts.length := by
  obtain ⟨mid, hts, -, -, -⟩ := parseNumbers_ok_elim n ts vs rest h
  rw [hts]
  simp

/-- A failed numeric loop raises at a position no further than the end of
its input. -/
theorem parseNumbers_error_length (n : Nat) (ts e : List Token)
    (h : parseNumbers n ts = .error e) : e.length ≤ ts.length := by
  induction n generalizing ts with
  | zero => simp [parseNumbers] at h
  | succ n ih =>
    match ts with
    | [] =>
      have hno : parseNumbers (n + 1) [] = .error [] := by
        simp only [parseNumbers, nextToken, tokenHasType]
        rw [if_neg (by decide)]
      rw [hno] at h
      injection h with h'
      subst h'
      exact Nat.le_refl _
    | t :: ts' =>
      simp only [parseNumbers, nextToken, tokenHasType] at h
      by_cases hmask : t.kind &&& QuakeMapToken.Number ≠ 0
      · rw [if_pos (by simpa using hmask)] at h
        match hrec : parseNumbers n ts' with
        | .ok (vs, rest) => rw [hrec] at h; exact absurd h (by simp)
        | .error e' =>
          rw [hrec] at h
          injection h with h'
          subst h'
          have := ih ts' hrec
          simp only [List.length_cons]
          omega
      · rw [if_neg (by simpa using hmask)] at h
        injection h with h'
        subst h'
        simp

/-- A successful `parseFloatVector` run with proper (non-`Eof`) delimiter
masks consumes at least one token. -/
theorem parseFloatVector_ok_length (S : Nat) (o c : QuakeMapToken.Type')
    (ts : List Token) (vs : List ℚ) (rest : List Token)
    (ho : QuakeMapToken.Eof &&& o = 0)
    (h : parseFloatVector S o c ts = .ok (vs, rest)) : rest.length < ts.length := by
  match ts with
  | [] =>
    simp only [parseFloatVector, nextToken, tokenHasType] at h
    rw [if_neg (by simp [ho])] at h
    exact absurd h (by simp)
  | t :: ts1 =>
    simp only [parseFloatVector, nextToken, tokenHasType] at h
    by_cases h0 : t.kind &&& o ≠ 0
    · rw [if_pos (by simpa using h0)] at h
      match hn : parseNumbers S ts1 with
      | .ok (vs', ts2) =>
        rw [hn] at h
        have h2 := parseNumbers_ok_length S ts1 vs' ts2 hn
        match ts2, h2 with
        | [], h2 =>
          simp only [nextToken] at h
          by_cases hc : (⟨QuakeMapToken.Eof, 0, ""⟩ : Token).kind &&& c ≠ 0
          · rw [if_pos (by simpa using hc)] at h
            injection h with h'
            have hr : ([] : List Token) = rest := congrArg Prod.snd h'
            rw [← hr]
            simp
          · rw [if_neg (by simpa using hc)] at h
            exact absurd h (by simp)
        | t2 :: rest2, h2 =>
          simp only [nextToken] at h
          by_cases hc : t2.kind &&& c ≠ 0
          · rw [if_pos (by simpa using hc)] at h
            injection h with h'
            have hr : rest2 = rest := congrArg Prod.snd h'
            rw [← hr]
            simp only [List.length_cons] at h2 ⊢
            omega
          · rw [if_neg (by simpa using hc)] at h
            exact absurd h (by simp)
      | .error e => rw [hn] at h; exact absurd h (by simp)
    · rw [if_neg (by simpa using h0)] at h
      exact absurd h (by simp)

/-- A failed `parseFloatVector` run raises at a position no further than the
end of its input. -/
theorem parseFloatVector_error_length (S : Nat) (o c : QuakeMapToken.Type')
    (ts e : List Token) (h : parseFloatVector S o c ts = .error e) :
    e.length ≤ ts.length := by
  match ts with
  | [] =>
    simp only [parseFloatVector, nextToken, tokenHasType] at h
    by_cases h0 : (⟨QuakeMapToken.Eof, 0, ""⟩ : Token).kind &&& o ≠ 0
    · rw [if_pos (by simpa using h0)] at h
      match hn : parseNumbers S [] with
      | .ok (vs', ts2) =>
        have h2 := parseNumbers_ok_length S [] vs' ts2 hn
        have hts2 : ts2 = [] := List.eq_nil_of_length_eq_zero (by simpa using h2)
        subst hts2
        rw [hn] at h
        simp only [nextToken] at h
        by_cases hc : (⟨QuakeMapToken.Eof, 0, ""⟩ : Token).kind &&& c ≠ 0
        · rw [if_pos (by simpa using hc)] at h
          exact absurd h (by simp)
        · rw [if_neg (by simpa using hc)] at h
          injection h with h'
          subst h'
          exact Nat.le_refl _
      | .error e' =>
        rw [hn] at h
        injection h with h'
        subst h'
        exact parseNumbers_error_length S [] e' hn
    · rw [if_neg (by simpa using h0)] at h
      injection h with h'
      subst h'
      exact Nat.le_refl _
  | t :: ts1 =>
    simp only [parseFloatVector, nextToken, tokenHasType] at h
    by_cases h0 : t.kind &&& o ≠ 0
    · rw [if_pos (by simpa using h0)] at h
      match hn : parseNumbers S ts1 with
      | .ok (vs', ts2) =>
        rw [hn] at h
        have h2 := parseNumbers_ok_length S ts1 vs' ts2 hn
        match ts2, h2 with
        | [], h2 =>
          simp only [nextToken] at h
          by_cases hc : (⟨QuakeMapToken.Eof, 0, ""⟩ : Token).kind &&& c ≠ 0
          · rw [if_pos (by simpa using hc)] at h
            exact absurd h (by simp)
          · rw [if_neg (by simpa using hc)] at h
            injection h with h'
            subst h'
            simp
        | t2 :: rest2, h2 =>
          simp only [nextToken] at h
          by_cases hc : t2.kind &&& c ≠ 0
          · rw [if_pos (by simpa using hc)] at h
            exact absurd h (by simp)
          · rw [if_neg (by simpa using hc)] at h
            injection h with h'
            subst h'
            simp only [List.length_cons] at h2 ⊢
            omega
      | .error e' =>
        rw [hn] at h
        injection h with h'
        subst h'
        have := parseNumbers_error_length S ts1 e' hn
        simp only [List.length_cons]
        omega
    · rw [if_neg (by simpa using h0)] at h
      injection h with h'
      subst h'
      simp

/-- Resynchronization never moves backward: its result is no longer than
its input. -/
theorem resync_length (d : Nat) (ts : List Token) :
    (resync d ts).length ≤ ts.length := by
  induction ts generalizing d with
  | nil => simp [resync]
  | cons t rest ih =>
    simp only [resync]
    by_cases h1 : t.kind = QuakeMapToken.CBrace
    · rw [if_pos h1]
      by_cases h2 : d ≤ 1
      · rw [if_pos h2]; simp
      · rw [if_neg h2]
        have := ih (d - 1)
        simp only [List.length_cons]
        omega
    · rw [if_neg h1]
      by_cases h2 : t.kind = QuakeMapToken.OBrace
      · rw [if_pos h2]
        have := ih (d + 1)
        simp only [List.length_cons]
        omega
      · rw [if_neg h2]
        have := ih d
        simp only [List.length_cons]
        omega

/-- A successfully parsed dialect face consumes at least one token. -/
theorem parseDialectFace_ok_length (fmt : MapFormat) (ts : List Token)
    (f : DFace) (rest : List Token)
    (h : parseDialectFace fmt ts = .ok (f, rest)) : rest.length < ts.length := by
  simp only [parseDialectFace] at h
  match hv1 : parseFloatVector 3 QuakeMapToken.OParenthesis QuakeMapToken.CParenthesis ts with
  | .error e => simp only [hv1] at h; exact absurd h (by simp)
  | .ok (p1, ts1) =>
    simp only [hv1] at h
    have l1 := parseFloatVector_ok_length 3 _ _ ts p1 ts1 (by decide) hv1
    match hv2 : parseFloatVector 3 QuakeMapToken.OParenthesis QuakeMapToken.CParenthesis ts1 with
    | .error e => simp only [hv2] at h; exact absurd h (by simp)
    | .ok (p2, ts2) =>
      simp only [hv2] at h
      have l2 := parseFloatVector_ok_length 3 _ _ ts1 p2 ts2 (by decide) hv2
      match hv3 : parseFloatVector 3 QuakeMapToken.OParenthesis QuakeMapToken.CParenthesis ts2 with
      | .error e => simp only [hv3] at h; exact absurd h (by simp)
      | .ok (p3, ts3) =>
        simp only [hv3] at h
        have l3 := parseFloatVector_ok_length 3 _ _ ts2 p3 ts3 (by decide) hv3
        match ts3, l3 with
        | [], l3 =>
          simp only [nextToken] at h
          rw [if_neg (by decide :
            ¬ ((⟨QuakeMapToken.Eof, 0, ""⟩ : Token).kind &&& QuakeMapToken.String ≠ 0))] at h
          exact absurd h (by simp)
        | t :: ts4, l3 =>
          simp only [nextToken] at h
          by_cases hstr : t.kind &&& QuakeMapToken.String ≠ 0
          · rw [if_pos hstr] at h
            by_cases hax : formatHasExplicitAxes fmt = true
            · rw [if_pos hax] at h
              match hv4 : parseFloatVector 4 QuakeMapToken.OBracket QuakeMapToken.CBracket ts4 with
              | .error e => simp only [hv4] at h; exact absurd h (by simp)
              | .ok (ua, ts5) =>
                simp only [hv4] at h
                have l4 := parseFloatVector_ok_length 4 _ _ ts4 ua ts5 (by decide) hv4
                match hv5 : parseFloatVector 4 QuakeMapToken.OBracket QuakeMapToken.CBracket ts5 with
                | .error e => simp only [hv5] at h; exact absurd h (by simp)
                | .ok (va, ts6) =>
                  simp only [hv5] at h
                  have l5 := parseFloatVector_ok_length 4 _ _ ts5 va ts6 (by decide) hv5
                  match hn : parseNumbers (formatTrailingCount fmt) ts6 with
                  | .error e => simp only [hn] at h; exact absurd h (by simp)
                  | .ok (tr, rest') =>
                    simp only [hn] at h
                    injection h with h'
                    have hr : rest' = rest := congrArg Prod.snd h'
                    have l6 := parseNumbers_ok_length _ ts6 tr rest' hn
                    rw [hr] at l6
                    simp only [List.length_cons] at l3 ⊢
                    omega
            · rw [if_neg hax] at h
              match hn : parseNumbers (formatTrailingCount fmt) ts4 with
              | .error e => simp only [hn] at h; exact absurd h (by simp)
              | .ok (tr, rest') =>
                simp only [hn] at h
                injection h with h'
                have hr : rest' = rest := congrArg Prod.snd h'
                have l6 := parseNumbers_ok_length _ ts4 tr rest' hn
                rw [hr] at l6
                simp only [List.length_cons] at l3 ⊢
                omega
          · rw [if_neg hstr] at h
            exact absurd h (by simp)

/-- A failed dialect-face parse raises at a position no further than the end
of its input. -/
theorem parseDialectFace_error_length (fmt : MapFormat) (ts e : List Token)
    (h : parseDialectFace fmt ts = .error e) : e.length ≤ ts.length := by
  simp only [parseDialectFace] at h
  match hv1 : parseFloatVector 3 QuakeMapToken.OParenthesis QuakeMapToken.CParenthesis ts with
  | .error e' =>
    simp only [hv1] at h
    injection h with h'
    subst h'
    exact parseFloatVector_error_length 3 _ _ ts e' hv1
  | .ok (p1, ts1) =>
    simp only [hv1] at h
    have l1 := parseFloatVector_ok_length 3 _ _ ts p1 ts1 (by decide) hv1
    match hv2 : parseFloatVector 3 QuakeMapToken.OParenthesis QuakeMapToken.CParenthesis ts1 with
    | .error e' =>
      simp only [hv2] at h
      injection h with h'
      subst h'
      have := parseFloatVector_error_length 3 _ _ ts1 e' hv2
      omega
    | .ok (p2, ts2) =>
      simp only [hv2] at h
      have l2 := parseFloatVector_ok_length 3 _ _ ts1 p2 ts2 (by decide) hv2
      match hv3 : parseFloatVector 3 QuakeMapToken.OParenthesis QuakeMapToken.CParenthesis ts2 with
      | .error e' =>
        simp only [hv3] at h
        injection h with h'
        subst h'
        have := parseFloatVector_error_length 3 _ _ ts2 e' hv3
        omega
      | .ok (p3, ts3) =>
        simp only [hv3] at h
        have l3 := parseFloatVector_ok_length 3 _ _ ts2 p3 ts3 (by decide) hv3
        match ts3, l3 with
        | [], l3 =>
          simp only [nextToken] at h
          rw [if_neg (by decide :
            ¬ ((⟨QuakeMapToken.Eof, 0, ""⟩ : Token).kind &&& QuakeMapToken.String ≠ 0))] at h
          injection h with h'
          subst h'
          simp
        | t :: ts4, l3 =>
          simp only [nextToken] at h
          simp only [List.length_cons] at l3
          by_cases hstr : t.kind &&& QuakeMapToken.String ≠ 0
          · rw [if_pos hstr] at h
            by_cases hax : formatHasExplicitAxes fmt = true
            · rw [if_pos hax] at h
              match hv4 : parseFloatVector 4 QuakeMapToken.OBracket QuakeMapToken.CBracket ts4 with
              | .error e' =>
                simp only [hv4] at h
                injection h with h'
                subst h'
                have := parseFloatVector_error_length 4 _ _ ts4 e' hv4
                omega
              | .ok (ua, ts5) =>
                simp only [hv4] at h
                have l4 := parseFloatVector_ok_length 4 _ _ ts4 ua ts5 (by decide) hv4
                match hv5 : parseFloatVector 4 QuakeMapToken.OBracket QuakeMapToken.CBracket ts5 with
                | .error e' =>
                  simp only [hv5] at h
                  injection h with h'
                  subst h'
                  have := parseFloatVector_error_length 4 _ _ ts5 e' hv5
                  omega
                | .ok (va, ts6) =>
                  simp only [hv5] at h
                  have l5 := parseFloatVector_ok_length 4 _ _ ts5 va ts6 (by decide) hv5
                  match hn : parseNumbers (formatTrailingCount fmt) ts6 with
                  | .error e' =>
                    simp only [hn] at h
                    injection h with h'
                    subst h'
                    have := parseNumbers_error_length _ ts6 e' hn
                    omega
                  | .ok (tr, rest') =>
                    simp only [hn] at h
                    exact absurd h (by simp)
            · rw [if_neg hax] at h
              match hn : parseNumbers (formatTrailingCount fmt) ts4 with
              | .error e' =>
                simp only [hn] at h
                injection h with h'
                subst h'
                have := parseNumbers_error_length _ ts4 e' hn
                omega
              | .ok (tr, rest') =>
                simp only [hn] at h
                exact absurd h (by simp)
          · rw [if_neg hstr] at h
            injection h with h'
            subst h'
            omega

/-- One-step unfolding of the face loop on a nonempty stream. -/
theorem parseFaceLoopF_cons (fmt : MapFormat) (fuel : Nat) (t : Token) (rest : List Token) :
    parseFaceLoopF fmt (fuel + 1) (t :: rest)
      = if t.kind = QuakeMapToken.CBrace then .ok ([], rest)
        else if t.kind = QuakeMapToken.OParenthesis then
          match parseDialectFace fmt (t :: rest) with
          | .ok (f, ts') =>
            match parseFaceLoopF fmt fuel ts' with
            | .ok (fs, rest') => .ok (f :: fs, rest')
            | .error e => .error e
          | .error e => .error e
        else .error rest := rfl

/-- A successful face loop consumes at least its closing brace. -/
theorem parseFaceLoopF_ok_length (fmt : MapFormat) (fuel : Nat) (ts : List Token)
    (fs : List DFace) (rest : List Token)
    (h : parseFaceLoopF fmt fuel ts = .ok (fs, rest)) : rest.length < ts.length := by
  induction fuel generalizing ts fs with
  | zero => simp only [parseFaceLoopF] at h; exact absurd h (by simp)
  | succ fuel ih =>
    match ts with
    | [] => simp only [parseFaceLoopF] at h; exact absurd h (by simp)
    | t :: rest0 =>
      rw [parseFaceLoopF_cons] at h
      by_cases h1 : t.kind = QuakeMapToken.CBrace
      · rw [if_pos h1] at h
        injection h with h'
        have hr : rest0 = rest := congrArg Prod.snd h'
        rw [← hr]
        simp
      · rw [if_neg h1] at h
        by_cases h2 : t.kind = QuakeMapToken.OParenthesis
        · rw [if_pos h2] at h
          match hf : parseDialectFace fmt (t :: rest0) with
          | .ok (f, ts') =>
            simp only [hf] at h
            have l1 := parseDialectFace_ok_length fmt _ _ _ hf
            match hrec : parseFaceLoopF fmt fuel ts' with
            | .ok (fs', rest') =>
              simp only [hrec] at h
              injection h with h'
              have hr : rest' = rest := congrArg Prod.snd h'
              rw [hr] at hrec
              have l2 := ih ts' fs' hrec
              omega
            | .error e =>
              simp only [hrec] at h
              exact absurd h (by simp)
          | .error e =>
            simp only [hf] at h
            exact absurd h (by simp)
        · rw [if_neg h2] at h
          exact absurd h (by simp)

/-- A failed face loop raises at a position no further than the end of its
input. -/
theorem parseFaceLoopF_error_length (fmt : MapFormat) (fuel : Nat) (ts e : List Token)
    (h : parseFaceLoopF fmt fuel ts = .error e) : e.length ≤ ts.length := by
  induction fuel generalizing ts e with
  | zero =>
    simp only [parseFaceLoopF] at h
    injection h with h'
    subst h'
    exact Nat.le_refl _
  | succ fuel ih =>
    match ts with
    | [] =>
      simp only [parseFaceLoopF] at h
      injection h with h'
      subst h'
      simp
    | t :: rest0 =>
      rw [parseFaceLoopF_cons] at h
      by_cases h1 : t.kind = QuakeMapToken.CBrace
      · rw [if_pos h1] at h
        exact absurd h (by simp)
      · rw [if_neg h1] at h
        by_cases h2 : t.kind = QuakeMapToken.OParenthesis
        · rw [if_pos h2] at h
          match hf : parseDialectFace fmt (t :: rest0) with
          | .ok (f, ts') =>
            simp only [hf] at h
            have l1 := parseDialectFace_ok_length fmt _ _ _ hf
            match hrec : parseFaceLoopF fmt fuel ts' with
            | .ok (fs', rest') =>
              simp only [hrec] at h
              exact absurd h (by simp)
            | .error e' =>
              simp only [hrec] at h
              injection h with h'
              subst h'
              have l2 := ih ts' e' hrec
              omega
          | .error e' =>
            simp only [hf] at h
            injection h with h'
            subst h'
            exact parseDialectFace_error_length fmt _ _ hf
        · rw [if_neg h2] at h
          injection h with h'
          subst h'
          simp

/-- One-step unfolding of the entity-body loop on a nonempty stream. -/
theorem parseEntityBodyF_cons (fmt : MapFormat) (fuel : Nat) (t : Token)
    (rest : List Token) (st : List EntityProperty × List String) :
    parseEntityBodyF fmt (fuel + 1) (t :: rest) st
      = if t.kind = QuakeMapToken.CBrace then .ok ((st.1, [], 0), rest)
        else if t.kind = QuakeMapToken.String then
          if (nextToken rest).1.kind = QuakeMapToken.String then
            parseEntityBodyF fmt fuel (nextToken rest).2
              (parseEntityProperty st t.text (nextToken rest).1.text)
          else .error (nextToken rest).2
        else if t.kind = QuakeMapToken.OBrace then
          match parseFaceLoopF fmt fuel rest with
          | .ok (fs, ts') =>
            match parseEntityBodyF fmt fuel ts' st with
            | .ok ((props, bs, e), rest') => .ok ((props, fs :: bs, e), rest')
            | .error e' => .error e'
          | .error epos =>
            match parseEntityBodyF fmt fuel (resync 1 epos) st with
            | .ok ((props, bs, e), rest') => .ok ((props, bs, e + 1), rest')
            | .error e' => .error e'
        else .error rest := rfl

/-- The tokenizer never grows the stream. -/
theorem nextToken_snd_length (ts : List Token) :
    (nextToken ts).2.length ≤ ts.length := by
  cases ts <;> simp [nextToken]

/-- A successfully closed entity body consumes at least its closing brace. -/
theorem parseEntityBodyF_ok_length (fmt : MapFormat) (fuel : Nat) (ts : List Token)
    (st : List EntityProperty × List String)
    (out : List EntityProperty × List (List DFace) × Nat) (rest' : List Token)
    (h : parseEntityBodyF fmt fuel ts st = .ok (out, rest')) : rest'.length < ts.length := by
  induction fuel generalizing ts st out with
  | zero => simp only [parseEntityBodyF] at h; exact absurd h (by simp)
  | succ fuel ih =>
    match ts with
    | [] => simp only [parseEntityBodyF] at h; exact absurd h (by simp)
    | t :: rest0 =>
      rw [parseEntityBodyF_cons] at h
      by_cases h1 : t.kind = QuakeMapToken.CBrace
      · rw [if_pos h1] at h
        injection h with h'
        have hr : rest0 = rest' := congrArg Prod.snd h'
        rw [← hr]
        simp
      · rw [if_neg h1] at h
        by_cases h2 : t.kind = QuakeMapToken.String
        · rw [if_pos h2] at h
          by_cases h3 : (nextToken rest0).1.kind = QuakeMapToken.String
          · rw [if_pos h3] at h
            have l1 := nextToken_snd_length rest0
            have l2 := ih _ _ _ h
            simp only [List.length_cons]
            omega
          · rw [if_neg h3] at h
            exact absurd h (by simp)
        · rw [if_neg h2] at h
          by_cases h4 : t.kind = QuakeMapToken.OBrace
          · rw [if_pos h4] at h
            match hf : parseFaceLoopF fmt fuel rest0 with
            | .ok (fs, ts') =>
              simp only [hf] at h
              have l1 := parseFaceLoopF_ok_length fmt fuel rest0 fs ts' hf
              match hrec : parseEntityBodyF fmt fuel ts' st with
              | .ok ((props, bs, e), r') =>
                simp only [hrec] at h
                injection h with h'
                have hr : r' = rest' := congrArg Prod.snd h'
                rw [hr] at hrec
                have l2 := ih ts' st (props, bs, e) hrec
                simp only [List.length_cons]
                omega
              | .error e' =>
                simp only [hrec] at h
                exact absurd h (by simp)
            | .error epos =>
              simp only [hf] at h
              have l1 := parseFaceLoopF_error_length fmt fuel rest0 epos hf
              have l1b := resync_length 1 epos
              match hrec : parseEntityBodyF fmt fuel (resync 1 epos) st with
              | .ok ((props, bs, e), r') =>
                simp only [hrec] at h
                injection h with h'
                have hr : r' = rest' := congrArg Prod.snd h'
                rw [hr] at hrec
                have l2 := ih _ st (props, bs, e) hrec
                simp only [List.length_cons]
                omega
              | .error e' =>
                simp only [hrec] at h
                exact absurd h (by simp)
          · rw [if_neg h4] at h
            exact absurd h (by simp)

/-- A failed entity body raises at a position no further than the end of its
input. -/
theorem parseEntityBodyF_error_length (fmt : MapFormat) (fuel : Nat) (ts : List Token)
    (st : List EntityProperty × List String) (e : List Token)
    (h : parseEntityBodyF fmt fuel ts st = .error e) : e.length ≤ ts.length := by
  induction fuel generalizing ts st e with
  | zero =>
    simp only [parseEntityBodyF] at h
    injection h with h'
    subst h'
    exact Nat.le_refl _
  | succ fuel ih =>
    match ts with
    | [] =>
      simp only [parseEntityBodyF] at h
      injection h with h'
      subst h'
      simp
    | t :: rest0 =>
      rw [parseEntityBodyF_cons] at h
      by_cases h1 : t.kind = QuakeMapToken.CBrace
      · rw [if_pos h1] at h
        exact absurd h (by simp)
      · rw [if_neg h1] at h
        by_cases h2 : t.kind = QuakeMapToken.String
        · rw [if_pos h2] at h
          by_cases h3 : (nextToken rest0).1.kind = QuakeMapToken.String
          · rw [if_pos h3] at h
            have l1 := nextToken_snd_length rest0
            have l2 := ih _ _ _ h
            simp only [List.length_cons]
            omega
          · rw [if_neg h3] at h
            injection h with h'
            subst h'
            have := nextToken_snd_length rest0
            simp only [List.length_cons]
            omega
        · rw [if_neg h2] at h
          by_cases h4 : t.kind = QuakeMapToken.OBrace
          · rw [if_pos h4] at h
            match hf : parseFaceLoopF fmt fuel rest0 with
            | .ok (fs, ts') =>
              simp only [hf] at h
              have l1 := parseFaceLoopF_ok_length fmt fuel rest0 fs ts' hf
              match hrec : parseEntityBodyF fmt fuel ts' st with
              | .ok ((props, bs, e2), r') =>
                simp only [hrec] at h
                exact absurd h (by simp)
              | .error e' =>
                simp only [hrec] at h
                injection h with h'
                subst h'
                have l2 := ih ts' st e' hrec
                simp only [List.length_cons]
                omega
            | .error epos =>
              simp only [hf] at h
              have l1 := parseFaceLoopF_error_length fmt fuel rest0 epos hf
              have l1b := resync_length 1 epos
              match hrec : parseEntityBodyF fmt fuel (resync 1 epos) st with
              | .ok ((props, bs, e2), r') =>
                simp only [hrec] at h
                exact absurd h (by simp)
              | .error e' =>
                simp only [hrec] at h
                injection h with h'
                subst h'
                have l2 := ih _ st e' hrec
                simp only [List.length_cons]
                omega
          · rw [if_neg h4] at h
            injection h with h'
            subst h'
            simp

/-- One-step unfolding of the top-level entity loop on a nonempty stream. -/
theorem parseMapF_cons (fmt : MapFormat) (fuel : Nat) (t : Token) (rest : List Token) :
    parseMapF fmt (fuel + 1) (t :: rest)
      = if t.kind = QuakeMapToken.OBrace then
          match parseEntityBodyF fmt fuel rest ([], []) with
          | .ok ((props, bs, e), rest') =>
            let (ents, errs) := parseMapF fmt fuel rest'
            (⟨props, bs⟩ :: ents, e + errs)
          | .error epos =>
            let (ents, errs) := parseMapF fmt fuel (resync 1 epos)
            (ents, errs + 1)
        else
          let (ents, errs) := parseMapF fmt fuel rest
          (ents, errs + 1) := rfl

/-! ## Linking the parser functions to the run relations -/

/-- Soundness/totality of the face loop: with enough fuel (one unit per
remaining token), the function's outcome is a derivable run. -/
theorem parseFaceLoopF_sound (fmt : MapFormat) (fuel : Nat) (ts : List Token)
    (hfuel : ts.length < fuel) :
    FaceLoopRun fmt ts (parseFaceLoopF fmt fuel ts) := by
  induction fuel generalizing ts with
  | zero => exact absurd hfuel (by omega)
  | succ fuel ih =>
    match ts, hfuel with
    | [], _ => exact FaceLoopRun.eofF
    | t :: rest, hfuel =>
      have hrest : rest.length < fuel := by
        simp only [List.length_cons] at hfuel
        omega
      by_cases h1 : t.kind = QuakeMapToken.CBrace
      · have hval : parseFaceLoopF fmt (fuel + 1) (t :: rest) = .ok ([], rest) := by
          rw [parseFaceLoopF_cons, if_pos h1]
        rw [hval]
        exact FaceLoopRun.closeF t rest h1
      · by_cases h2 : t.kind = QuakeMapToken.OParenthesis
        · match hf : parseDialectFace fmt (t :: rest) with
          | .ok (f, ts') =>
            have hlt : ts'.length < fuel := by
              have := parseDialectFace_ok_length fmt _ _ _ hf
              simp only [List.length_cons] at this
              omega
            have hrun := ih ts' hlt
            match hrec : parseFaceLoopF fmt fuel ts' with
            | .ok (fs, rest') =>
              have hval : parseFaceLoopF fmt (fuel + 1) (t :: rest) = .ok (f :: fs, rest') := by
                rw [parseFaceLoopF_cons, if_neg h1, if_pos h2]
                simp only [hf, hrec]
              rw [hval]
              exact FaceLoopRun.faceOkF t rest f ts' fs rest' h1 h2 hf (hrec ▸ hrun)
            | .error e =>
              have hval : parseFaceLoopF fmt (fuel + 1) (t :: rest) = .error e := by
                rw [parseFaceLoopF_cons, if_neg h1, if_pos h2]
                simp only [hf, hrec]
              rw [hval]
              exact FaceLoopRun.faceSeqErrF t rest f ts' e h1 h2 hf (hrec ▸ hrun)
          | .error e =>
            have hval : parseFaceLoopF fmt (fuel + 1) (t :: rest) = .error e := by
              rw [parseFaceLoopF_cons, if_neg h1, if_pos h2]
              simp only [hf]
            rw [hval]
            exact FaceLoopRun.faceErrF t rest e h1 h2 hf
        · have hval : parseFaceLoopF fmt (fuel + 1) (t :: rest) = .error rest := by
            rw [parseFaceLoopF_cons, if_neg h1, if_neg h2]
          rw [hval]
          exact FaceLoopRun.badF t rest h1 h2

/-- Soundness/totality of the entity-body loop: with enough fuel, the
function's outcome is a derivable run from any accumulator state. -/
theorem parseEntityBodyF_sound (fmt : MapFormat) (fuel : Nat) (ts : List Token)
    (st : List EntityProperty × List String) (hfuel : ts.length < fuel) :
    EntityBodyRun fmt ts st (parseEntityBodyF fmt fuel ts st) := by
  induction fuel generalizing ts st with
  | zero => exact absurd hfuel (by omega)
  | succ fuel ih =>
    match ts, hfuel with
    | [], _ => exact EntityBodyRun.eofE st
    | t :: rest, hfuel =>
      have hrest : rest.length < fuel := by
        simp only [List.length_cons] at hfuel
        omega
      by_cases h1 : t.kind = QuakeMapToken.CBrace
      · have hval : parseEntityBodyF fmt (fuel + 1) (t :: rest) st
            = .ok ((st.1, [], 0), rest) := by
          rw [parseEntityBodyF_cons, if_pos h1]
        rw [hval]
        exact EntityBodyRun.closeE t rest st h1
      · by_cases h2 : t.kind = QuakeMapToken.String
        · by_cases h3 : (nextToken rest).1.kind = QuakeMapToken.String
          · have hlt : (nextToken rest).2.length < fuel := by
              have := nextToken_snd_length rest
              omega
            have hrun := ih (nextToken rest).2
              (parseEntityProperty st t.text (nextToken rest).1.text) hlt
            have hval : parseEntityBodyF fmt (fuel + 1) (t :: rest) st
                = parseEntityBodyF fmt fuel (nextToken rest).2
                    (parseEntityProperty st t.text (nextToken rest).1.text) := by
              rw [parseEntityBodyF_cons, if_neg h1, if_pos h2, if_pos h3]
            rw [hval]
            exact EntityBodyRun.propE t rest st _ h1 h2 h3 hrun
          · have hval : parseEntityBodyF fmt (fuel + 1) (t :: rest) st
                = .error (nextToken rest).2 := by
              rw [parseEntityBodyF_cons, if_neg h1, if_pos h2, if_neg h3]
            rw [hval]
            exact EntityBodyRun.propBadE t rest st h1 h2 h3
        · by_cases h4 : t.kind = QuakeMapToken.OBrace
          · match hf : parseFaceLoopF fmt fuel rest with
            | .ok (fs, ts') =>
              have hfrun : FaceLoopRun fmt rest (.ok (fs, ts')) :=
                hf ▸ parseFaceLoopF_sound fmt fuel rest hrest
              have hlt : ts'.length < fuel := by
                have := parseFaceLoopF_ok_length fmt fuel rest fs ts' hf
                omega
              have hrun := ih ts' st hlt
              match hrec : parseEntityBodyF fmt fuel ts' st with
              | .ok ((props, bs, e), rest') =>
                have hval : parseEntityBodyF fmt (fuel + 1) (t :: rest) st
                    = .ok ((props, fs :: bs, e), rest') := by
                  rw [parseEntityBodyF_cons, if_neg h1, if_neg h2, if_pos h4]
                  simp only [hf, hrec]
                rw [hval]
                exact EntityBodyRun.brushOkE t rest st fs ts' props bs e rest'
                  h1 h2 h4 hfrun (hrec ▸ hrun)
              | .error e' =>
                have hval : parseEntityBodyF fmt (fuel + 1) (t :: rest) st = .error e' := by
                  rw [parseEntityBodyF_cons, if_neg h1, if_neg h2, if_pos h4]
                  simp only [hf, hrec]
                rw [hval]
                exact EntityBodyRun.brushSeqErrE t rest st fs ts' e'
                  h1 h2 h4 hfrun (hrec ▸ hrun)
            | .error epos =>
              have hfrun : FaceLoopRun fmt rest (.error epos) :=
                hf ▸ parseFaceLoopF_sound fmt fuel rest hrest
              have hlt : (resync 1 epos).length < fuel := by
                have hb1 := parseFaceLoopF_error_length fmt fuel rest epos hf
                have hb2 := resync_length 1 epos
                omega
              have hrun := ih (resync 1 epos) st hlt
              match hrec : parseEntityBodyF fmt fuel (resync 1 epos) st with
              | .ok ((props, bs, e), rest') =>
                have hval : parseEntityBodyF fmt (fuel + 1) (t :: rest) st
                    = .ok ((props, bs, e + 1), rest') := by
                  rw [parseEntityBodyF_cons, if_neg h1, if_neg h2, if_pos h4]
                  simp only [hf, hrec]
                rw [hval]
                exact EntityBodyRun.brushErrE t rest st epos props bs e rest'
                  h1 h2 h4 hfrun (hrec ▸ hrun)
              | .error e' =>
                have hval : parseEntityBodyF fmt (fuel + 1) (t :: rest) st = .error e' := by
                  rw [parseEntityBodyF_cons, if_neg h1, if_neg h2, if_pos h4]
                  simp only [hf, hrec]
                rw [hval]
                exact EntityBodyRun.brushErrSeqErrE t rest st epos e'
                  h1 h2 h4 hfrun (hrec ▸ hrun)
          · have hval : parseEntityBodyF fmt (fuel + 1) (t :: rest) st = .error rest := by
              rw [parseEntityBodyF_cons, if_neg h1, if_neg h2, if_neg h4]
            rw [hval]
            exact EntityBodyRun.badE t rest st h1 h2 h4

/-- Soundness/totality of the top level: with enough fuel, the function's
outcome is a derivable run. -/
theorem parseMapF_sound (fmt : MapFormat) (fuel : Nat) (ts : List Token)
    (hfuel : ts.length < fuel) :
    MapRun fmt ts (parseMapF fmt fuel ts) := by
  induction fuel generalizing ts with
  | zero => exact absurd hfuel (by omega)
  | succ fuel ih =>
    match ts, hfuel with
    | [], _ => exact MapRun.eofM
    | t :: rest, hfuel =>
      have hrest : rest.length < fuel := by
        simp only [List.length_cons] at hfuel
        omega
      by_cases h1 : t.kind = QuakeMapToken.OBrace
      · match he : parseEntityBodyF fmt fuel rest ([], []) with
        | .ok ((props, bs, e), rest') =>
          have herun : EntityBodyRun fmt rest ([], []) (.ok ((props, bs, e), rest')) :=
            he ▸ parseEntityBodyF_sound fmt fuel rest ([], []) hrest
          have hlt : rest'.length < fuel := by
            have := parseEntityBodyF_ok_length fmt fuel rest ([], []) (props, bs, e) rest' he
            omega
          have hrun := ih rest' hlt
          match hrec : parseMapF fmt fuel rest' with
          | (ents, errs) =>
            have hval : parseMapF fmt (fuel + 1) (t :: rest)
                = (⟨props, bs⟩ :: ents, e + errs) := by
              rw [parseMapF_cons, if_pos h1]
              simp only [he, hrec]
            rw [hval]
            exact MapRun.entOkM t rest props bs e rest' ents errs h1 herun (hrec ▸ hrun)
        | .error epos =>
          have herun : EntityBodyRun fmt rest ([], []) (.error epos) :=
            he ▸ parseEntityBodyF_sound fmt fuel rest ([], []) hrest
          have hlt : (resync 1 epos).length < fuel := by
            have hb1 := parseEntityBodyF_error_length fmt fuel rest ([], []) epos he
            have hb2 := resync_length 1 epos
            omega
          have hrun := ih (resync 1 epos) hlt
          match hrec : parseMapF fmt fuel (resync 1 epos) with
          | (ents, errs) =>
            have hval : parseMapF fmt (fuel + 1) (t :: rest) = (ents, errs + 1) := by
              rw [parseMapF_cons, if_pos h1]
              simp only [he, hrec]
            rw [hval]
            exact MapRun.entErrM t rest epos ents errs h1 herun (hrec ▸ hrun)
      · have hrun := ih rest hrest
        match hrec : parseMapF fmt fuel rest with
        | (ents, errs) =>
          have hval : parseMapF fmt (fuel + 1) (t :: rest) = (ents, errs + 1) := by
            rw [parseMapF_cons, if_neg h1]
            simp only [hrec]
          rw [hval]
          exact MapRun.skipM t rest ents errs h1 (hrec ▸ hrun)

/-- The link between the parser functions and the run relations: the result
of `parseMap` (the parser at its canonical fuel) is always a derivable run
of the derivation system, for every dialect and every input. -/
theorem parseMap_run (fmt : MapFormat) (ts : List Token) :
    MapRun fmt ts (parseMap fmt ts) :=
  parseMapF_sound fmt (ts.length + 1) ts (Nat.lt_succ_self _)

/-! ## Determinism of the run relations (C2) -/

/-- The face-loop derivation relation is a partial function of the stream:
two runs on the same stream produce the same outcome. -/
theorem FaceLoopRun_det (fmt : MapFormat) (ts : List Token)
    (o1 o2 : Except (List Token) (List DFace × List Token))
    (h1 : FaceLoopRun fmt ts o1) (h2 : FaceLoopRun fmt ts o2) : o1 = o2 := by
  induction h1 generalizing o2 with
  | eofF =>
    cases h2 with
    | eofF => rfl
  | closeF t rest ht =>
    cases h2 with
    | closeF => rfl
    | faceOkF tt rr f2 ts2 fs2 rest2 hne2 hop2 hpf2 hrun2 => exact absurd ht hne2
    | faceSeqErrF tt rr f2 ts2 e2 hne2 hop2 hpf2 hrun2 => exact absurd ht hne2
    | faceErrF tt rr e2 hne2 hop2 hpf2 => exact absurd ht hne2
    | badF tt rr hne2 hnop2 => exact absurd ht hne2
  | faceOkF t rest f ts' fs rest' hne hop hpf hrun ih =>
    cases h2 with
    | closeF tt rr ht2 => exact absurd ht2 hne
    | faceOkF tt rr f2 ts2 fs2 rest2 hne2 hop2 hpf2 hrun2 =>
      rw [hpf] at hpf2
      injection hpf2 with hp
      have hf : f = f2 := congrArg Prod.fst hp
      have hts : ts' = ts2 := congrArg Prod.snd hp
      subst hf
      subst hts
      have := ih _ hrun2
      injection this with hp2
      have hfs : fs = fs2 := congrArg Prod.fst hp2
      have hr : rest' = rest2 := congrArg Prod.snd hp2
      rw [hfs, hr]
    | faceSeqErrF tt rr f2 ts2 e2 hne2 hop2 hpf2 hrun2 =>
      rw [hpf] at hpf2
      injection hpf2 with hp
      have hts : ts' = ts2 := congrArg Prod.snd hp
      subst hts
      exact absurd (ih _ hrun2) (by simp)
    | faceErrF tt rr e2 hne2 hop2 hpf2 =>
      rw [hpf] at hpf2
      exact absurd hpf2 (by simp)
    | badF tt rr hne2 hnop2 => exact absurd hop hnop2
  | faceSeqErrF t rest f ts' e hne hop hpf hrun ih =>
    cases h2 with
    | closeF tt rr ht2 => exact absurd ht2 hne
    | faceOkF tt rr f2 ts2 fs2 rest2 hne2 hop2 hpf2 hrun2 =>
      rw [hpf] at hpf2
      injection hpf2 with hp
      have hts : ts' = ts2 := congrArg Prod.snd hp
      subst hts
      exact absurd (ih _ hrun2).symm (by simp)
    | faceSeqErrF tt rr f2 ts2 e2 hne2 hop2 hpf2 hrun2 =>
      rw [hpf] at hpf2
      injection hpf2 with hp
      have hts : ts' = ts2 := congrArg Prod.snd hp
      subst hts
      exact ih _ hrun2
    | faceErrF tt rr e2 hne2 hop2 hpf2 =>
      rw [hpf] at hpf2
      exact absurd hpf2 (by simp)
    | badF tt rr hne2 hnop2 => exact absurd hop hnop2
  | faceErrF t rest e hne hop hpf =>
    cases h2 with
    | closeF tt rr ht2 => exact absurd ht2 hne
    | faceOkF tt rr f2 ts2 fs2 rest2 hne2 hop2 hpf2 hrun2 =>
      rw [hpf] at hpf2
      exact absurd hpf2 (by simp)
    | faceSeqErrF tt rr f2 ts2 e2 hne2 hop2 hpf2 hrun2 =>
      rw [hpf] at hpf2
      exact absurd hpf2 (by simp)
    | faceErrF tt rr e2 hne2 hop2 hpf2 =>
      rw [hpf] at hpf2
      injection hpf2 with hp
      rw [hp]
    | badF tt rr hne2 hnop2 => exact absurd hop hnop2
  | badF t rest hne hnop =>
    cases h2 with
    | closeF tt rr ht2 => exact absurd ht2 hne
    | faceOkF tt rr f2 ts2 fs2 rest2 hne2 hop2 hpf2 hrun2 => exact absurd hop2 hnop
    | faceSeqErrF tt rr f2 ts2 e2 hne2 hop2 hpf2 hrun2 => exact absurd hop2 hnop
    | faceErrF tt rr e2 hne2 hop2 hpf2 => exact absurd hop2 hnop
    | badF tt rr hne2 hnop2 => rfl

/-- The entity-body derivation relation is a partial function of the stream
and accumulator state. -/
theorem EntityBodyRun_det (fmt : MapFormat) (ts : List Token)
    (st : List EntityProperty × List String)
    (o1 o2 : Except (List Token) ((List EntityProperty × List (List DFace) × Nat) × List Token))
    (h1 : EntityBodyRun fmt ts st o1) (h2 : EntityBodyRun fmt ts st o2) : o1 = o2 := by
  induction h1 generalizing o2 with
  | eofE st =>
    cases h2 with
    | eofE => rfl
  | closeE t rest st ht =>
    cases h2 with
    | closeE => rfl
    | propE tt rr ss out2 hne2 hstr2 hv2 hrun2 => exact absurd ht hne2
    | propBadE tt rr ss hne2 hstr2 hnv2 => exact absurd ht hne2
    | brushOkE tt rr ss fs2 ts2 props2 bs2 e2 rest2 hne2 hns2 hob2 hfl2 hrun2 =>
      exact absurd ht hne2
    | brushSeqErrE tt rr ss fs2 ts2 e2 hne2 hns2 hob2 hfl2 hrun2 => exact absurd ht hne2
    | brushErrE tt rr ss epos2 props2 bs2 e2 rest2 hne2 hns2 hob2 hfl2 hrun2 =>
      exact absurd ht hne2
    | brushErrSeqErrE tt rr ss epos2 e2 hne2 hns2 hob2 hfl2 hrun2 => exact absurd ht hne2
    | badE tt rr ss hne2 hns2 hnob2 => exact absurd ht hne2
  | propE t rest st out hne hstr hv hrun ih =>
    cases h2 with
    | closeE tt rr ss ht2 => exact absurd ht2 hne
    | propE tt rr ss out2 hne2 hstr2 hv2 hrun2 => exact ih _ hrun2
    | propBadE tt rr ss hne2 hstr2 hnv2 => exact absurd hv hnv2
    | brushOkE tt rr ss fs2 ts2 props2 bs2 e2 rest2 hne2 hns2 hob2 hfl2 hrun2 =>
      exact absurd hstr hns2
    | brushSeqErrE tt rr ss fs2 ts2 e2 hne2 hns2 hob2 hfl2 hrun2 => exact absurd hstr hns2
    | brushErrE tt rr ss epos2 props2 bs2 e2 rest2 hne2 hns2 hob2 hfl2 hrun2 =>
      exact absurd hstr hns2
    | brushErrSeqErrE tt rr ss epos2 e2 hne2 hns2 hob2 hfl2 hrun2 => exact absurd hstr hns2
    | badE tt rr ss hne2 hns2 hnob2 => exact absurd hstr hns2
  | propBadE t rest st hne hstr hnv =>
    cases h2 with
    | closeE tt rr ss ht2 => exact absurd ht2 hne
    | propE tt rr ss out2 hne2 hstr2 hv2 hrun2 => exact absurd hv2 hnv
    | propBadE tt rr ss hne2 hstr2 hnv2 => rfl
    | brushOkE tt rr ss fs2 ts2 props2 bs2 e2 rest2 hne2 hns2 hob2 hfl2 hrun2 =>
      exact absurd hstr hns2
    | brushSeqErrE tt rr ss fs2 ts2 e2 hne2 hns2 hob2 hfl2 hrun2 => exact absurd hstr hns2
    | brushErrE tt rr ss epos2 props2 bs2 e2 rest2 hne2 hns2 hob2 hfl2 hrun2 =>
      exact absurd hstr hns2
    | brushErrSeqErrE tt rr ss epos2 e2 hne2 hns2 hob2 hfl2 hrun2 => exact absurd hstr hns2
    | badE tt rr ss hne2 hns2 hnob2 => exact absurd hstr hns2
  | brushOkE t rest st fs ts' props bs e rest' hne hns hob hfl hrun ih =>
    cases h2 with
    | closeE tt rr ss ht2 => exact absurd ht2 hne
    | propE tt rr ss out2 hne2 hstr2 hv2 hrun2 => exact absurd hstr2 hns
    | propBadE tt rr ss hne2 hstr2 hnv2 => exact absurd hstr2 hns
    | brushOkE tt rr ss fs2 ts2 props2 bs2 e2 rest2 hne2 hns2 hob2 hfl2 hrun2 =>
      have hb := FaceLoopRun_det fmt rest _ _ hfl hfl2
      injection hb with hp
      have hfs : fs = fs2 := congrArg Prod.fst hp
      have hts : ts' = ts2 := congrArg Prod.snd hp
      subst hfs
      subst hts
      have := ih _ hrun2
      injection this with hp2
      have hT : (props, bs, e) = (props2, bs2, e2) := congrArg Prod.fst hp2
      have hR : rest' = rest2 := congrArg Prod.snd hp2
      have hP : props = props2 := congrArg Prod.fst hT
      have hBE : (bs, e) = (bs2, e2) := congrArg Prod.snd hT
      have hB : bs = bs2 := congrArg Prod.fst hBE
      have hE : e = e2 := congrArg Prod.snd hBE
      rw [hP, hB, hE, hR]
    | brushSeqErrE tt rr ss fs2 ts2 e2 hne2 hns2 hob2 hfl2 hrun2 =>
      have hb := FaceLoopRun_det fmt rest _ _ hfl hfl2
      injection hb with hp
      have hts : ts' = ts2 := congrArg Prod.snd hp
      subst hts
      exact absurd (ih _ hrun2) (by simp)
    | brushErrE tt rr ss epos2 props2 bs2 e2 rest2 hne2 hns2 hob2 hfl2 hrun2 =>
      exact absurd (FaceLoopRun_det fmt rest _ _ hfl hfl2) (by simp)
    | brushErrSeqErrE tt rr ss epos2 e2 hne2 hns2 hob2 hfl2 hrun2 =>
      exact absurd (FaceLoopRun_det fmt rest _ _ hfl hfl2) (by simp)
    | badE tt rr ss hne2 hns2 hnob2 => exact absurd hob hnob2
  | brushSeqErrE t rest st fs ts' e' hne hns hob hfl hrun ih =>
    cases h2 with
    | closeE tt rr ss ht2 => exact absurd ht2 hne
    | propE tt rr ss out2 hne2 hstr2 hv2 hrun2 => exact absurd hstr2 hns
    | propBadE tt rr ss hne2 hstr2 hnv2 => exact absurd hstr2 hns
    | brushOkE tt rr ss fs2 ts2 props2 bs2 e2 rest2 hne2 hns2 hob2 hfl2 hrun2 =>
      have hb := FaceLoopRun_det fmt rest _ _ hfl hfl2
      injection hb with hp
      have hts : ts' = ts2 := congrArg Prod.snd hp
      subst hts
      exact absurd (ih _ hrun2).symm (by simp)
    | brushSeqErrE tt rr ss fs2 ts2 e2 hne2 hns2 hob2 hfl2 hrun2 =>
      have hb := FaceLoopRun_det fmt rest _ _ hfl hfl2
      injection hb with hp
      have hts : ts' = ts2 := congrArg Prod.snd hp
      subst hts
      exact ih _ hrun2
    | brushErrE tt rr ss epos2 props2 bs2 e2 rest2 hne2 hns2 hob2 hfl2 hrun2 =>
      exact absurd (FaceLoopRun_det fmt rest _ _ hfl hfl2) (by simp)
    | brushErrSeqErrE tt rr ss epos2 e2 hne2 hns2 hob2 hfl2 hrun2 =>
      exact absurd (FaceLoopRun_det fmt rest _ _ hfl hfl2) (by simp)
    | badE tt rr ss hne2 hns2 hnob2 => exact absurd hob hnob2
  | brushErrE t rest st epos props bs e rest' hne hns hob hfl hrun ih =>
    cases h2 with
    | closeE tt rr ss ht2 => exact absurd ht2 hne
    | propE tt rr ss out2 hne2 hstr2 hv2 hrun2 => exact absurd hstr2 hns
    | propBadE tt rr ss hne2 hstr2 hnv2 => exact absurd hstr2 hns
    | brushOkE tt rr ss fs2 ts2 props2 bs2 e2 rest2 hne2 hns2 hob2 hfl2 hrun2 =>
      exact absurd (FaceLoopRun_det fmt rest _ _ hfl hfl2) (by simp)
    | brushSeqErrE tt rr ss fs2 ts2 e2 hne2 hns2 hob2 hfl2 hrun2 =>
      exact absurd (FaceLoopRun_det fmt rest _ _ hfl hfl2) (by simp)
    | brushErrE tt rr ss epos2 props2 bs2 e2 rest2 hne2 hns2 hob2 hfl2 hrun2 =>
      have hb := FaceLoopRun_det fmt rest _ _ hfl hfl2
      injection hb with hp
      subst hp
      have := ih _ hrun2
      injection this with hp2
      have hT : (props, bs, e) = (props2, bs2, e2) := congrArg Prod.fst hp2
      have hR : rest' = rest2 := congrArg Prod.snd hp2
      have hP : props = props2 := congrArg Prod.fst hT
      have hBE : (bs, e) = (bs2, e2) := congrArg Prod.snd hT
      have hB : bs = bs2 := congrArg Prod.fst hBE
      have hE : e = e2 := congrArg Prod.snd hBE
      rw [hP, hB, hE, hR]
    | brushErrSeqErrE tt rr ss epos2 e2 hne2 hns2 hob2 hfl2 hrun2 =>
      have hb := FaceLoopRun_det fmt rest _ _ hfl hfl2
      injection hb with hp
      subst hp
      exact absurd (ih _ hrun2) (by simp)
    | badE tt rr ss hne2 hns2 hnob2 => exact absurd hob hnob2
  | brushErrSeqErrE t rest st epos e' hne hns hob hfl hrun ih =>
    cases h2 with
    | closeE tt rr ss ht2 => exact absurd ht2 hne
    | propE tt rr ss out2 hne2 hstr2 hv2 hrun2 => exact absurd hstr2 hns
    | propBadE tt rr ss hne2 hstr2 hnv2 => exact absurd hstr2 hns
    | brushOkE tt rr ss fs2 ts2 props2 bs2 e2 rest2 hne2 hns2 hob2 hfl2 hrun2 =>
      exact absurd (FaceLoopRun_det fmt rest _ _ hfl hfl2) (by simp)
    | brushSeqErrE tt rr ss fs2 ts2 e2 hne2 hns2 hob2 hfl2 hrun2 =>
      exact absurd (FaceLoopRun_det fmt rest _ _ hfl hfl2) (by simp)
    | brushErrE tt rr ss epos2 props2 bs2 e2 rest2 hne2 hns2 hob2 hfl2 hrun2 =>
      have hb := FaceLoopRun_det fmt rest _ _ hfl hfl2
      injection hb with hp
      subst hp
      exact absurd (ih _ hrun2).symm (by simp)
    | brushErrSeqErrE tt rr ss epos2 e2 hne2 hns2 hob2 hfl2 hrun2 =>
      have hb := FaceLoopRun_det fmt rest _ _ hfl hfl2
      injection hb with hp
      subst hp
      exact ih _ hrun2
    | badE tt rr ss hne2 hns2 hnob2 => exact absurd hob hnob2
  | badE t rest st hne hns hnob =>
    cases h2 with
    | closeE tt rr ss ht2 => exact absurd ht2 hne
    | propE tt rr ss out2 hne2 hstr2 hv2 hrun2 => exact absurd hstr2 hns
    | propBadE tt rr ss hne2 hstr2 hnv2 => exact absurd hstr2 hns
    | brushOkE tt rr ss fs2 ts2 props2 bs2 e2 rest2 hne2 hns2 hob2 hfl2 hrun2 =>
      exact absurd hob2 hnob
    | brushSeqErrE tt rr ss fs2 ts2 e2 hne2 hns2 hob2 hfl2 hrun2 => exact absurd hob2 hnob
    | brushErrE tt rr ss epos2 props2 bs2 e2 rest2 hne2 hns2 hob2 hfl2 hrun2 =>
      exact absurd hob2 hnob
    | brushErrSeqErrE tt rr ss epos2 e2 hne2 hns2 hob2 hfl2 hrun2 => exact absurd hob2 hnob
    | badE tt rr ss hne2 hns2 hnob2 => rfl

/-- The whole-file derivation relation is a partial function of the
stream. -/
theorem MapRun_det (fmt : MapFormat) (ts : List Token) (o1 o2 : List PEntity × Nat)
    (h1 : MapRun fmt ts o1) (h2 : MapRun fmt ts o2) : o1 = o2 := by
  induction h1 generalizing o2 with
  | eofM =>
    cases h2 with
    | eofM => rfl
  | entOkM t rest props bs e rest' ents errs hob hent hrec ih =>
    cases h2 with
    | entOkM tt rr props2 bs2 e2 rest2 ents2 errs2 hob2 hent2 hrec2 =>
      have hb := EntityBodyRun_det fmt rest ([], []) _ _ hent hent2
      injection hb with hp
      have hT : (props, bs, e) = (props2, bs2, e2) := congrArg Prod.fst hp
      have hR : rest' = rest2 := congrArg Prod.snd hp
      have hP : props = props2 := congrArg Prod.fst hT
      have hBE : (bs, e) = (bs2, e2) := congrArg Prod.snd hT
      have hB : bs = bs2 := congrArg Prod.fst hBE
      have hE : e = e2 := congrArg Prod.snd hBE
      subst hR
      have := ih _ hrec2
      have hEnts : ents = ents2 := congrArg Prod.fst this
      have hErrs : errs = errs2 := congrArg Prod.snd this
      rw [hP, hB, hE, hEnts, hErrs]
    | entErrM tt rr epos2 ents2 errs2 hob2 hent2 hrec2 =>
      exact absurd (EntityBodyRun_det fmt rest ([], []) _ _ hent hent2) (by simp)
    | skipM tt rr ents2 errs2 hnob2 hrec2 => exact absurd hob hnob2
  | entErrM t rest epos ents errs hob hent hrec ih =>
    cases h2 with
    | entOkM tt rr props2 bs2 e2 rest2 ents2 errs2 hob2 hent2 hrec2 =>
      exact absurd (EntityBodyRun_det fmt rest ([], []) _ _ hent hent2) (by simp)
    | entErrM tt rr epos2 ents2 errs2 hob2 hent2 hrec2 =>
      have hb := EntityBodyRun_det fmt rest ([], []) _ _ hent hent2
      injection hb with hp
      subst hp
      have := ih _ hrec2
      have hEnts : ents = ents2 := congrArg Prod.fst this
      have hErrs : errs = errs2 := congrArg Prod.snd this
      rw [hEnts, hErrs]
    | skipM tt rr ents2 errs2 hnob2 hrec2 => exact absurd hob hnob2
  | skipM t rest ents errs hnob hrec ih =>
    cases h2 with
    | entOkM tt rr props2 bs2 e2 rest2 ents2 errs2 hob2 hent2 hrec2 =>
      exact absurd hob2 hnob
    | entErrM tt rr epos2 ents2 errs2 hob2 hent2 hrec2 => exact absurd hob2 hnob
    | skipM tt rr ents2 errs2 hnob2 hrec2 =>
      have := ih _ hrec2
      have hEnts : ents = ents2 := congrArg Prod.fst this
      have hErrs : errs = errs2 := congrArg Prod.snd this
      rw [hEnts, hErrs]

/-- **C2.** For every input token stream and every fixed pair of source and
target dialects, two runs of the parser on the identical stream deliver
identical constructs to the builder: the two outcomes are equal outright,
so the entity sequence carries the same properties in the same order, the
same brushes with faces in the same order, and — applying the axis resolver
in the source dialect and the format converter to the target dialect, both
over exact rationals — bit-identical computed texture axes for every face;
moreover the common outcome is exactly what the executable parser
`parseMap` computes in the source dialect. -/
theorem C2_parse_deterministic (src tgt : MapFormat) (ts : List Token)
    (o1 o2 : List PEntity × Nat)
    (h1 : MapRun src ts o1) (h2 : MapRun src ts o2) :
    o1 = o2 ∧
    o1.1.map PEntity.properties = o2.1.map PEntity.properties ∧
    o1.1.map PEntity.brushes = o2.1.map PEntity.brushes ∧
    o1.1.map (fun ent => ent.brushes.map (fun b =>
        b.map (fun f => convertAxesTo tgt (dFaceNormal f) (resolvedAxes src f)))) =
      o2.1.map (fun ent => ent.brushes.map (fun b =>
        b.map (fun f => convertAxesTo tgt (dFaceNormal f) (resolvedAxes src f)))) ∧
    o1 = parseMap src ts := by
  have heq : o1 = o2 := MapRun_det src ts o1 o2 h1 h2
  have hfun : o1 = parseMap src ts :=
    MapRun_det src ts o1 (parseMap src ts) h1 (parseMap_run src ts)
  subst heq
  exact ⟨rfl, rfl, rfl, rfl, hfun⟩

/-- Witness for C2: on the concrete stream
`\x7b "classname" "worldspawn" \x7d` the derivation produced by
`parseMap_run` (in the standard source dialect, with the Valve 220 target
dialect) instantiates the determinism theorem, and the common outcome is
one worldspawn entity with its single property and no brushes or errors. -/
theorem C2_parse_deterministic_witness :
    parseMap MapFormat.standard worldspawnStream =
      ([⟨[⟨"classname", "worldspawn"⟩], []⟩], 0) ∧
    parseMap MapFormat.standard worldspawnStream =
      parseMap MapFormat.standard worldspawnStream :=
  ⟨by decide,
   (C2_parse_deterministic MapFormat.standard MapFormat.valve worldspawnStream
      (parseMap MapFormat.standard worldspawnStream)
      (parseMap MapFormat.standard worldspawnStream)
      (parseMap_run MapFormat.standard worldspawnStream)
      (parseMap_run MapFormat.standard worldspawnStream)).1⟩

/-! ## Explicit→implicit→explicit round trip (C7) -/

/-- C7 counterexample: an explicit-axis face whose U axis is not the default
basis axis of its plane.  The round trip preserves the plane but changes the
projected U coordinate of the point `(0, 1, 0)` by 1, far beyond the claimed
1e-6 tolerance — the explicit→implicit conversion discards the axis
vectors. -/
theorem C7_roundtrip_counterexample :
    (implicitToExplicit (explicitToImplicit
        ⟨⟨0, 0, 1⟩, 0, ⟨0, 1, 0⟩, ⟨1, 0, 0⟩, 0, 0⟩)).normal
      = (⟨0, 0, 1⟩ : Vec3)
    ∧ (uvOfExplicit (implicitToExplicit (explicitToImplicit
          ⟨⟨0, 0, 1⟩, 0, ⟨0, 1, 0⟩, ⟨1, 0, 0⟩, 0, 0⟩)) ⟨0, 1, 0⟩).1
        - (uvOfExplicit (⟨⟨0, 0, 1⟩, 0, ⟨0, 1, 0⟩, ⟨1, 0, 0⟩, 0, 0⟩ : FaceExplicit)
            ⟨0, 1, 0⟩).1 = -1
    ∧ ¬ (-(1 / 1000000) ≤ (-1 : ℚ) ∧ (-1 : ℚ) ≤ 1 / 1000000) := by
  have hax : defaultAxes ⟨0, 0, 1⟩ = (⟨1, 0, 0⟩, ⟨0, -1, 0⟩) := by
    norm_num [defaultAxes]
  refine ⟨rfl, ?_, ?_⟩
  · simp [uvOfExplicit, implicitToExplicit, explicitToImplicit, hax, dot]
  · intro h
    have := h.1
    norm_num at this

/-- C7 (amended): the round trip explicit→implicit→explicit always
reproduces the plane exactly; it reproduces the projected UVs (exactly, hence
within any tolerance) when the face's explicit axes coincide with the
default basis the Axis Resolver derives from its plane — for other explicit
axes the UVs change, as the counterexample shows, because the
explicit→implicit conversion discards the axis vectors (spec section 4.4). -/
theorem C7_roundtrip_amended (f : FaceExplicit) :
    ((implicitToExplicit (explicitToImplicit f)).normal = f.normal
      ∧ (implicitToExplicit (explicitToImplicit f)).d = f.d)
    ∧ ((f.uAxis, f.vAxis) = defaultAxes f.normal →
        ∀ p : Vec3, uvOfExplicit (implicitToExplicit (explicitToImplicit f)) p
          = uvOfExplicit f p) := by
  refine ⟨⟨rfl, rfl⟩, ?_⟩
  intro hax p
  have hu : f.uAxis = (defaultAxes f.normal).1 := congrArg Prod.fst hax
  have hv : f.vAxis = (defaultAxes f.normal).2 := congrArg Prod.snd hax
  simp only [implicitToExplicit, explicitToImplicit, uvOfExplicit, dot]
  rw [hu, hv]
  simp [div_one]

/-- C7 amended witness: a face already carrying the default basis of the
horizontal plane round-trips with identical UVs at a concrete point. -/
theorem C7_roundtrip_amended_witness :
    uvOfExplicit (implicitToExplicit (explicitToImplicit
        ⟨⟨0, 0, 1⟩, 5, ⟨1, 0, 0⟩, ⟨0, -1, 0⟩, 2, 3⟩)) ⟨7, 11, 13⟩
      = uvOfExplicit (⟨⟨0, 0, 1⟩, 5, ⟨1, 0, 0⟩, ⟨0, -1, 0⟩, 2, 3⟩ : FaceExplicit)
          ⟨7, 11, 13⟩ :=
  (C7_roundtrip_amended ⟨⟨0, 0, 1⟩, 5, ⟨1, 0, 0⟩, ⟨0, -1, 0⟩, 2, 3⟩).2
    (by decide) ⟨7, 11, 13⟩

end MapParsing
end TrenchBroom
